import Mathlib

/-!
# Verification of the MeManga multi-source chapter reconciliation engine

Shallow embedding of the modules `memanga/scrapers/base.py` (chapter model),
`memanga/state.py` (state store), `memanga/downloader.py` (reconciliation
engine `check_for_updates`) and the commit step of `memanga/cli.py`
(`add_downloaded_chapter` followed by `clear_pending_backup`).

Modelling conventions:
* Python `float` values are modelled as `ℚ`, built with `mkRat` so that all
  concrete values kernel-evaluate.  Every comparison the engine performs is
  between values obtained from short decimal literals, on which IEEE rounding
  is monotone and injective, so all order facts carry over exactly.
* `datetime` timestamps are modelled as integer numbers of seconds;
  `timedelta.days` is floor division by 86400 (`Int.fdiv`), matching Python's
  floor semantics also for negative differences.  The ISO round trip
  (`isoformat` / `fromisoformat`) is the identity and is not modelled.
* Python `dict`s are insertion-ordered association lists: assigning to an
  existing key overwrites in place, a new key is appended at the end.
* `save()` persistence, the `last_check` timestamp and the `check_history`
  telemetry of `state.py` are not part of any claim and are omitted.
-/

namespace MeManga

/-! ## Python string / number primitives -/

/-- Value of a list of ASCII digits, most significant first. -/
def digitsVal (l : List Char) : Nat :=
  l.foldl (fun n c => 10 * n + (c.toNat - 48)) 0

/-- The rational `sign * mant / 10 ^ flen * 10 ^ e`: value of a decimal
literal with integral-and-fractional digits `mant`, `flen` fractional digits
and exponent `e`. -/
def pyDecValue (sign : Int) (mant : Nat) (flen : Nat) (e : Int) : ℚ :=
  if 0 ≤ e then mkRat (sign * (mant * 10 ^ e.toNat : Nat)) (10 ^ flen)
  else mkRat (sign * mant) (10 ^ flen * 10 ^ (-e).toNat)

/-- Exponent suffix of a Python float literal: empty, or `e`/`E` followed by
an optional sign and at least one digit. -/
def parseExpOpt : List Char → Option Int
  | [] => some 0
  | c :: rest =>
    if c = 'e' ∨ c = 'E' then
      let signAndRest : Int × List Char :=
        match rest with
        | '+' :: t => (1, t)
        | '-' :: t => (-1, t)
        | t => (1, t)
      let ds := signAndRest.2.takeWhile Char.isDigit
      let rem := signAndRest.2.dropWhile Char.isDigit
      if ds.isEmpty ∨ ¬ rem.isEmpty then none
      else some (signAndRest.1 * (digitsVal ds : Int))
    else none

/-- Unsigned part of a Python float literal: digits, optional `.`, digits,
optional exponent; at least one digit before any exponent.  Returns the
digit string's value, the number of fractional digits, and the exponent. -/
def parseUnsigned (l : List Char) : Option (Nat × Nat × Int) :=
  let ip := l.takeWhile Char.isDigit
  let r1 := l.dropWhile Char.isDigit
  match r1 with
  | '.' :: r2 =>
    let fp := r2.takeWhile Char.isDigit
    let r3 := r2.dropWhile Char.isDigit
    if ip.isEmpty ∧ fp.isEmpty then none
    else (parseExpOpt r3).map (fun e => (digitsVal (ip ++ fp), fp.length, e))
  | r1' =>
    if ip.isEmpty then none
    else (parseExpOpt r1').map (fun e => (digitsVal ip, 0, e))

/-- Model of Python `float(s)` on finite decimal literals: optional
whitespace, optional sign, digits with optional decimal point and optional
exponent.  (`inf`/`nan` spellings and digit-group underscores are not
modelled; no chapter label in any claim uses them.)  `none` models the
`ValueError` raised on any other string. -/
def pyFloatParse (s : String) : Option ℚ :=
  let l := ((s.data.dropWhile Char.isWhitespace).reverse.dropWhile
      Char.isWhitespace).reverse
  let signAndRest : Int × List Char :=
    match l with
    | '+' :: r => (1, r)
    | '-' :: r => (-1, r)
    | r => (1, r)
  (parseUnsigned signAndRest.2).map
    (fun p => pyDecValue signAndRest.1 p.1 p.2.1 p.2.2)

/-- The match of the regex `(\d+\.?\d*)` at a position starting with a digit:
greedy digits, then an optional single dot with greedy digits after it. -/
def matchNumAt (l : List Char) : ℚ :=
  let d1 := l.takeWhile Char.isDigit
  match l.dropWhile Char.isDigit with
  | '.' :: r2 =>
    let d2 := r2.takeWhile Char.isDigit
    mkRat (digitsVal (d1 ++ d2)) (10 ^ d2.length)
  | _ => mkRat (digitsVal d1) 1

/-- `re.search(r'(\d+\.?\d*)', s)`: value of the leftmost numeric substring,
if any digit occurs in `s`. -/
def firstNumericSubstring : List Char → Option ℚ
  | [] => none
  | c :: rest =>
    if c.isDigit then some (matchNumAt (c :: rest)) else firstNumericSubstring rest

/-! ## Chapter model (`scrapers/base.py`) -/

/-- `Chapter` dataclass of `scrapers/base.py`. -/
structure Chapter where
  number : String
  title : Option String := none
  url : String := ""
  date : Option String := none
deriving DecidableEq, Repr

/-- The ordinal key of a label: `float(label)`, else the first numeric
substring of the label, else `0.0`. -/
def labelOrdinal (label : String) : ℚ :=
  match pyFloatParse label with
  | some q => q
  | none => (firstNumericSubstring label.data).getD (mkRat 0 1)

/-- `Chapter.numeric`: the ordinal key of `self.number`. -/
def Chapter.numeric (ch : Chapter) : ℚ :=
  labelOrdinal ch.number

/-- Python `<` on strings: lexicographic comparison by code point. -/
def pyStrLt : List Char → List Char → Bool
  | [], [] => false
  | [], _ :: _ => true
  | _ :: _, [] => false
  | a :: as, b :: bs =>
    if a.toNat < b.toNat then true
    else if b.toNat < a.toNat then false
    else pyStrLt as bs

/-- `Chapter.__lt__`: `float(self.number) < float(other.number)` when both
labels parse as floats, else (a `ValueError` from either `float` call)
lexicographic string comparison of the labels. -/
def chapterLtLabels (a b : String) : Bool :=
  match pyFloatParse a, pyFloatParse b with
  | some x, some y => decide (x < y)
  | _, _ => pyStrLt a.data b.data

/-- `ChapterWithSource` of `downloader.py`: a `Chapter` plus the source that
listed it.  `__init__` copies `number`, `title`, `url` (dropping `date`). -/
structure ChapterWithSource where
  number : String
  title : Option String
  url : String
  date : Option String
  source : String
  source_url : String
  is_backup : Bool
deriving DecidableEq, Repr

/-- `ChapterWithSource(chapter, source, source_url, is_backup)`. -/
def mkChapterWithSource (ch : Chapter) (source source_url : String)
    (is_backup : Bool) : ChapterWithSource :=
  { number := ch.number, title := ch.title, url := ch.url, date := none,
    source := source, source_url := source_url, is_backup := is_backup }

/-- The inherited `Chapter.__lt__` applied to two `ChapterWithSource`s. -/
def cwsLt (a b : ChapterWithSource) : Bool :=
  chapterLtLabels a.number b.number

/-! ## Python `sorted` / `list.sort`

Python's sort is stable.  We model it as stable insertion sort: each element
is inserted into the already-sorted part before the first strictly greater
element.  For a comparator that is a strict weak order (in particular any
key-based comparator, and every concrete list appearing in a theorem below)
this agrees with every stable sort, including CPython's. -/

/-- Insert `a` before the first element `b` with `lt a b`. -/
def insertSorted (lt : α → α → Bool) (a : α) : List α → List α
  | [] => [a]
  | b :: l => if lt a b then a :: b :: l else b :: insertSorted lt a l

/-- Stable insertion sort, processing the list left to right. -/
def pySort (lt : α → α → Bool) (l : List α) : List α :=
  l.foldl (fun acc x => insertSorted lt x acc) []

/-! ## State store (`state.py`)

Python dicts are modelled as insertion-ordered association lists. -/

/-- Lookup in an insertion-ordered dict. -/
def dictLookup (k : String) : List (String × α) → Option α
  | [] => none
  | (k2, v) :: rest => if k2 = k then some v else dictLookup k rest

/-- `d[k] = v`: overwrite in place if present, else append. -/
def dictInsert (k : String) (v : α) : List (String × α) → List (String × α)
  | [] => [(k, v)]
  | (k2, v2) :: rest =>
    if k2 = k then (k, v) :: rest else (k2, v2) :: dictInsert k v rest

/-- `del d[k]` (no-op if absent; callers guard with a membership test). -/
def dictRemove (k : String) : List (String × α) → List (String × α)
  | [] => []
  | (k2, v2) :: rest =>
    if k2 = k then rest else (k2, v2) :: dictRemove k rest

/-- The value stored in `pending_backup[label]`. -/
structure PendingEntry where
  first_seen : Int
  backup_source : String
  backup_url : String
deriving DecidableEq, Repr

/-- Per-series record inside `state["manga"]`.  `_ensure_manga_entry` creates
it with empty `downloaded`, `last_chapter = None` and `created = now`. -/
structure MangaEntry where
  downloaded : List String := []
  last_chapter : Option String := none
  last_updated : Option Int := none
  created : Option Int := none
  pending_backup : List (String × PendingEntry) := []
deriving DecidableEq, Repr

/-- The `State` store (per-series records only; telemetry fields omitted). -/
structure State where
  manga : List (String × MangaEntry) := []
deriving DecidableEq, Repr

/-- `State.get_manga_state`: the record for a title, `{}` if unknown. -/
def State.get_manga_state (s : State) (t : String) : MangaEntry :=
  (dictLookup t s.manga).getD ({} : MangaEntry)

/-- `State.get_last_chapter`. -/
def State.get_last_chapter (s : State) (t : String) : Option String :=
  (s.get_manga_state t).last_chapter

/-- `State.get_downloaded_chapters`. -/
def State.get_downloaded_chapters (s : State) (t : String) : List String :=
  (s.get_manga_state t).downloaded

/-- `State.is_chapter_downloaded`: `str(chapter) in downloaded`. -/
def State.is_chapter_downloaded (s : State) (t ch : String) : Bool :=
  (s.get_downloaded_chapters t).contains ch

/-- `State._ensure_manga_entry`. -/
def State.ensure_manga_entry (now : Int) (s : State) (t : String) : State :=
  if (dictLookup t s.manga).isSome then s
  else
    let fresh : MangaEntry := { created := some now }
    { manga := dictInsert t fresh s.manga }

/-- Sort key used on the `downloaded` list:
`float(x) if x.replace('.', '').isdigit() else 0`.  `none` models the
`ValueError` that `float` raises when the dot-stripped label is all digits
but the label itself does not parse (e.g. `"1.2.3"`); the `else` branch is
the literal `0` and never raises. -/
def downloadedKey (x : String) : Option ℚ :=
  let stripped := x.data.filter (fun c => c ≠ '.')
  if ¬ stripped.isEmpty ∧ stripped.all Char.isDigit then pyFloatParse x
  else some (mkRat 0 1)

/-- The comparator the sort applies once every key has been computed (on the
sorting branch every key is `some`, so the default is never consulted). -/
def downloadedKeyLt (a b : String) : Bool :=
  decide ((downloadedKey a).getD (mkRat 0 1) < (downloadedKey b).getD (mkRat 0 1))

/-- Outcome of a store call whose `list.sort(key=...)` can raise
`ValueError`: `ok` is a normal return; `raised` carries the in-memory state
the escaping exception leaves behind (the object stays mutated). -/
inductive CommitResult where
  | ok (st : State)
  | raised (st : State)
deriving DecidableEq, Repr

/-- The in-memory state after the call, whether or not it raised. -/
def CommitResult.state : CommitResult → State
  | .ok st => st
  | .raised st => st

/-- Whether the call returned normally. -/
def CommitResult.isOk : CommitResult → Bool
  | .ok _ => true
  | .raised _ => false

/-- `State.add_downloaded_chapter`: if the label is already recorded the
list is left alone; otherwise it is appended and the list re-sorted by
`downloadedKey` — the sort computes the key of every element and raises
`ValueError` if any key fails, restoring the list in pre-sort order (so
the append survives) and skipping the `last_chapter` / `last_updated`
assignments; on normal return `last_chapter` is set to the raw label
unconditionally. -/
def State.add_downloaded_chapter (now : Int) (s : State) (t ch : String) :
    CommitResult :=
  let s1 := s.ensure_manga_entry now t
  let e := s1.get_manga_state t
  if e.downloaded.contains ch then
    let e2 : MangaEntry :=
      { e with last_chapter := some ch, last_updated := some now }
    .ok { manga := dictInsert t e2 s1.manga }
  else if (e.downloaded ++ [ch]).all (fun x => (downloadedKey x).isSome) then
    let e2 : MangaEntry :=
      { e with downloaded := pySort downloadedKeyLt (e.downloaded ++ [ch]),
               last_chapter := some ch, last_updated := some now }
    .ok { manga := dictInsert t e2 s1.manga }
  else
    let e2 : MangaEntry := { e with downloaded := e.downloaded ++ [ch] }
    .raised { manga := dictInsert t e2 s1.manga }

/-- `State.get_pending_backup`. -/
def State.get_pending_backup (s : State) (t ch : String) :
    Option PendingEntry :=
  dictLookup ch (s.get_manga_state t).pending_backup

/-- `State.set_pending_backup`: create the entry (with `first_seen = now`)
only if none exists for this label. -/
def State.set_pending_backup (now : Int) (s : State)
    (t ch bsrc burl : String) : State :=
  let s1 := s.ensure_manga_entry now t
  let e := s1.get_manga_state t
  if (dictLookup ch e.pending_backup).isSome then s1
  else
    let e2 : MangaEntry :=
      { e with pending_backup :=
          dictInsert ch ⟨now, bsrc, burl⟩ e.pending_backup }
    { manga := dictInsert t e2 s1.manga }

/-- `State.clear_pending_backup`: delete the entry if present. -/
def State.clear_pending_backup (s : State) (t ch : String) : State :=
  let e := s.get_manga_state t
  if (dictLookup ch e.pending_backup).isSome then
    let e2 : MangaEntry := { e with pending_backup := dictRemove ch e.pending_backup }
    { manga := dictInsert t e2 s.manga }
  else s

/-! ## Manga configuration (`downloader.py`: `_get_sources_from_manga`) -/

/-- Characters allowed after the first letter of a URL scheme. -/
def isSchemeChar (c : Char) : Bool :=
  c.isAlphanum ∨ c = '+' ∨ c = '-' ∨ c = '.'

/-- `urlparse` scheme stripping: drop a leading `scheme:` when the text
before the first `:` is a letter followed by scheme characters. -/
def stripScheme (l : List Char) : List Char :=
  match l with
  | [] => []
  | c :: rest =>
    if c.isAlpha then
      match rest.dropWhile isSchemeChar with
      | ':' :: after => after
      | _ => l
    else l

/-- `urlparse(url).netloc`: present only when the remainder starts with
`//`; extends to the next `/`, `?` or `#`. -/
def netlocOf (l : List Char) : List Char :=
  match stripScheme l with
  | '/' :: '/' :: rest =>
    rest.takeWhile (fun c => c ≠ '/' ∧ c ≠ '?' ∧ c ≠ '#')
  | _ => []

/-- Does the text start with the pattern? -/
def startsWithPat : List Char → List Char → Bool
  | [], _ => true
  | _ :: _, [] => false
  | p :: ps, c :: cs => p = c && startsWithPat ps cs

/-- Python `str.replace(pat, rep)`: replace every non-overlapping occurrence
of `pat`, scanning left to right, with explicit fuel (structural recursion so
that concrete values kernel-evaluate).  For an empty pattern the text is
returned unchanged; the engine only ever uses the pattern `"www."`. -/
def replaceAllAux (pat rep : List Char) : Nat → List Char → List Char
  | _, [] => []
  | 0, l => l
  | fuel + 1, c :: cs =>
    if pat.isEmpty then c :: cs
    else if startsWithPat pat (c :: cs) then
      rep ++ replaceAllAux pat rep fuel (cs.drop (pat.length - 1))
    else c :: replaceAllAux pat rep fuel cs

/-- `text.replace(pat, rep)`; the fuel `text.length` suffices since each
step consumes at least one character. -/
def replaceAll (pat rep text : List Char) : List Char :=
  replaceAllAux pat rep text.length text

/-- `_extract_source`: the netloc with every occurrence of `"www."`
removed (`str.replace` replaces all occurrences). -/
def extractSource (url : String) : String :=
  String.mk (replaceAll "www.".data "".data (netlocOf url.data))

/-- One entry of a new-format `sources` array: a dict (whose `source` key
may be missing) or a bare URL string. -/
inductive SourceSpec where
  | dict (source : Option String) (url : String)
  | str (url : String)
deriving DecidableEq, Repr

/-- A manga config entry.  `sources = some _` is the new format; otherwise
the old single `source`/`url` format is used. -/
structure Manga where
  title : String
  sources : Option (List SourceSpec) := none
  source : Option String := none
  url : Option String := none
  fallback_delay_days : Option Int := none

/-- A normalized source: `{"source": ..., "url": ...}`. -/
structure SourceCfg where
  source : String
  url : String
deriving DecidableEq, Repr

/-- Normalization of one `sources` entry: `s.get("source") or
_extract_source(url)` (Python `or` treats `None` and `""` as falsy). -/
def sourceOfSpec : SourceSpec → SourceCfg
  | .dict src url =>
    { source :=
        match src with
        | some s => if s = "" then extractSource url else s
        | none => extractSource url,
      url := url }
  | .str u => { source := extractSource u, url := u }

/-- `_get_sources_from_manga`. -/
def getSourcesFromManga (manga : Manga) : List SourceCfg :=
  match manga.sources with
  | some specs => specs.map sourceOfSpec
  | none => [{ source := manga.source.getD "", url := manga.url.getD "" }]

/-! ## Reconciliation engine (`downloader.py`: `check_for_updates`) -/

/-- The external chapter-listing operation `get_scraper(source)
.get_chapters(url)`; `none` models any exception (unsupported source or
fetch failure), which skips the source for this run. -/
abbrev Listing := String → String → Option (List Chapter)

/-- Errors `check_for_updates` can raise: a `DownloaderError`, or the
unhandled `ValueError` from `float(last_chapter)`. -/
inductive CheckError where
  | downloaderError (msg : String)
  | valueError
deriving DecidableEq, Repr

instance {ε α : Type} [DecidableEq ε] [DecidableEq α] :
    DecidableEq (Except ε α) := fun a b =>
  match a, b with
  | .ok x, .ok y =>
    match decEq x y with
    | isTrue h => isTrue (by rw [h])
    | isFalse h => isFalse (fun hh => h (by cases hh; rfl))
  | .error x, .error y =>
    match decEq x y with
    | isTrue h => isTrue (by rw [h])
    | isFalse h => isFalse (fun hh => h (by cases hh; rfl))
  | .ok _, .error _ => isFalse (fun hh => by cases hh)
  | .error _, .ok _ => isFalse (fun hh => by cases hh)

/-- `last_num = float(last_chapter) if last_chapter else 0.0`; `None` and
the empty string are falsy; a non-parsing label raises `ValueError`. -/
def lastNumOf (st : State) (title : String) : Except CheckError ℚ :=
  match st.get_last_chapter title with
  | none => .ok (mkRat 0 1)
  | some lc =>
    if lc = "" then .ok (mkRat 0 1)
    else
      match pyFloatParse lc with
      | some q => .ok q
      | none => .error .valueError

/-- The per-source filter: keep chapters with `ch.numeric > last_num` that
are not recorded as downloaded. -/
def newChapters (st : State) (title : String) (last_num : ℚ)
    (l : List Chapter) : List Chapter :=
  l.filter (fun ch =>
    decide (last_num < ch.numeric) && ! st.is_chapter_downloaded title ch.number)

/-- Phase 1, source index 0 (`is_primary`): the `primary_chapters` dict.
`primary_chapters` is only written while scanning the first source. -/
def scanPrimary (fetch : Listing) (st : State) (title : String)
    (last_num : ℚ) (src : SourceCfg) : List (String × Chapter) :=
  match fetch src.source src.url with
  | none => []
  | some all =>
    (newChapters st title last_num all).foldl
      (fun d ch => dictInsert ch.number ch d) []

/-- Phase 1, source indices `≥ 1`: the `backup_chapters` dict mapping
`ch.number` to `(ch, source, url)`; a chapter is only tracked if its label
is not already in `primary_chapters` (which is final after index 0). -/
def scanBackups (fetch : Listing) (st : State) (title : String)
    (last_num : ℚ) (primary : List (String × Chapter)) :
    List SourceCfg → List (String × Chapter × String × String) →
      List (String × Chapter × String × String)
  | [], b => b
  | src :: rest, b =>
    let b2 :=
      match fetch src.source src.url with
      | none => b
      | some all =>
        (newChapters st title last_num all).foldl
          (fun d ch =>
            if (dictLookup ch.number primary).isSome then d
            else dictInsert ch.number (ch, src.source, src.url) d) b
    scanBackups fetch st title last_num primary rest b2

/-- Phase 2: every primary chapter becomes a non-backup
`ChapterWithSource` (with `sources[0]`'s identity) and its pending-backup
entry is cleared. -/
def processPrimary (title psrc purl : String) :
    List (String × Chapter) → State → List ChapterWithSource × State
  | [], st => ([], st)
  | (ch_num, ch) :: rest, st =>
    let st1 := st.clear_pending_backup title ch_num
    let r := processPrimary title psrc purl rest st1
    (mkChapterWithSource ch psrc purl false :: r.1, r.2)

/-- Phase 3: each backup chapter is emitted as a fallback decision when its
pending entry's waiting time `(now - first_seen).days` has reached
`fallback_delay_days`, and otherwise either keeps waiting or (when not yet
pending) gets a fresh pending entry with `first_seen = now` and the current
backup's identity and chapter URL. -/
def processBackups (title : String) (delay now : Int)
    (primary : List (String × Chapter)) :
    List (String × Chapter × String × String) → State →
      List ChapterWithSource × State
  | [], st => ([], st)
  | (ch_num, ch, bsrc, burl) :: rest, st =>
    if (dictLookup ch_num primary).isSome then
      processBackups title delay now primary rest st
    else
      match st.get_pending_backup title ch_num with
      | some p =>
        if delay ≤ Int.fdiv (now - p.first_seen) 86400 then
          let r := processBackups title delay now primary rest st
          (mkChapterWithSource ch bsrc burl true :: r.1, r.2)
        else processBackups title delay now primary rest st
      | none =>
        processBackups title delay now primary rest
          (st.set_pending_backup now title ch_num bsrc ch.url)

/-- `check_for_updates(manga, state)`, with the external listings, the
current time and the state passed explicitly.  Returns the sorted decision
list and the updated state, or the raised error. -/
def check_for_updates (manga : Manga) (fetch : Listing) (now : Int)
    (st : State) : Except CheckError (List ChapterWithSource × State) :=
  let title := manga.title
  let sources := getSourcesFromManga manga
  let fallback_delay_days := (manga.fallback_delay_days).getD 2
  match sources with
  | [] =>
    .error (.downloaderError ("No sources configured for '" ++ title ++ "'"))
  | s0 :: srest =>
    match lastNumOf st title with
    | .error e => .error e
    | .ok last_num =>
      let primary := scanPrimary fetch st title last_num s0
      let backup := scanBackups fetch st title last_num primary srest []
      let pp := processPrimary title s0.source s0.url primary st
      let pb := processBackups title fallback_delay_days now primary backup pp.2
      .ok (pySort cwsLt (pp.1 ++ pb.1), pb.2)

/-! ## Caller commit step (`cli.py`: `cmd_check`)

After each successful download the CLI runs
`state.add_downloaded_chapter(title, ch.number)` immediately followed by
`state.clear_pending_backup(title, ch.number)`; a `ValueError` raised by
the first call escapes the per-chapter handler (it catches only
`DownloaderError`) before the clear runs, and the per-manga handler then
abandons the rest of that series' download loop. -/

/-- One committed fetch as performed by `cmd_check`. -/
def commitFetchCLI (now : Int) (st : State) (title ch : String) :
    CommitResult :=
  match st.add_downloaded_chapter now title ch with
  | .ok st1 => .ok (st1.clear_pending_backup title ch)
  | .raised st1 => .raised st1

/-- The CLI's download loop over the chosen labels: the commits run in
order, and a raised `ValueError` stops the loop at that label. -/
def commitListCLI (now : Int) (title : String) : State → List String → State
  | st, [] => st
  | st, ch :: rest =>
    match commitFetchCLI now st title ch with
    | .ok st1 => commitListCLI now title st1 rest
    | .raised st1 => st1

/-- The labels whose commit step actually ran in the loop: the chosen
selection up to and including the first commit that raised. -/
def commitsRun (now : Int) (title : String) : State → List String → List String
  | _, [] => []
  | st, ch :: rest =>
    match commitFetchCLI now st title ch with
    | .ok st1 => ch :: commitsRun now title st1 rest
    | .raised _ => [ch]

/-- One reconcile-then-commit round of the caller: a `check_for_updates`
call followed by committing a chosen subset of the emitted decisions. -/
structure Round where
  manga : Manga
  fetch : Listing
  now : Int
  commitSel : List String

/-- The decision list of a `check_for_updates` call; a raised error yields
no decisions. -/
def checkDecisions (manga : Manga) (fetch : Listing) (now : Int)
    (st : State) : List ChapterWithSource :=
  match check_for_updates manga fetch now st with
  | .ok res => res.1
  | .error _ => []

/-- The state after a `check_for_updates` call; a raised error leaves the
state unchanged. -/
def checkState (manga : Manga) (fetch : Listing) (now : Int)
    (st : State) : State :=
  match check_for_updates manga fetch now st with
  | .ok res => res.2
  | .error _ => st

/-- The decisions and post-check state of a round. -/
def roundCheck (r : Round) (st : State) : List ChapterWithSource × State :=
  (checkDecisions r.manga r.fetch r.now st, checkState r.manga r.fetch r.now st)

/-- State after a round: the post-check state with the selected commits
applied in order (stopping at a raised `ValueError`). -/
def roundExec (r : Round) (st : State) : State :=
  commitListCLI r.now r.manga.title (roundCheck r st).2 r.commitSel

/-- A well-formed trace for series `T`: every round is for `T` and commits
each emitted decision at most once (a duplicate-free selection of labels
from that round's decision list). -/
def traceWF (T : String) : List Round → State → Prop
  | [], _ => True
  | r :: rs, st =>
    r.manga.title = T ∧ r.commitSel.Nodup ∧
      (∀ l ∈ r.commitSel, l ∈ (roundCheck r st).1.map ChapterWithSource.number) ∧
      traceWF T rs (roundExec r st)

/-- All labels whose commit step ran over a trace, in order. -/
def traceCommits : List Round → State → List String
  | [], _ => []
  | r :: rs, st =>
    commitsRun r.now r.manga.title (roundCheck r st).2 r.commitSel ++
      traceCommits rs (roundExec r st)

/-- Store well-formedness at a title, as holds for every state a real
Python run can produce: the pending-backup dict has no duplicate keys. -/
def PendingWF (s : State) (t : String) : Prop :=
  ((s.get_manga_state t).pending_backup.map Prod.fst).Nodup

/-- States reachable through the operations the engine and the CLI actually
perform on the store: `check_for_updates` transitions and the CLI's commit
(`add_downloaded_chapter` immediately followed by `clear_pending_backup`).
With `e = false` every commit returns normally; with `e = true` the
relation also admits the commit whose sort key raises `ValueError`, where
the exception escapes before the clear. -/
inductive ReachableCLI (e : Bool) : State → Prop
  | init : ReachableCLI e {}
  | step_check (manga : Manga) (fetch : Listing) (now : Int) (st : State)
      (ds : List ChapterWithSource) (st' : State) (h : ReachableCLI e st)
      (hok : check_for_updates manga fetch now st = .ok (ds, st')) :
      ReachableCLI e st'
  | step_commit_ok (now : Int) (title ch : String) (st st' : State)
      (h : ReachableCLI e st)
      (hok : commitFetchCLI now st title ch = .ok st') : ReachableCLI e st'
  | step_commit_raised (now : Int) (title ch : String) (st st' : State)
      (he : e = true) (h : ReachableCLI e st)
      (hr : commitFetchCLI now st title ch = .raised st') :
      ReachableCLI e st'

/-! ## Lemmas: the sort model -/

theorem insertSorted_perm (lt : α → α → Bool) (a : α) :
    ∀ l : List α, (insertSorted lt a l).Perm (a :: l) := by
  intro l
  induction l with
  | nil => simp [insertSorted]
  | cons b l ih =>
    simp only [insertSorted]
    by_cases h : lt a b
    · simp [h]
    · simp only [h, if_false]
      exact (ih.cons b).trans (List.Perm.swap a b l)

theorem pySortAux_perm (lt : α → α → Bool) :
    ∀ (l acc : List α),
      (l.foldl (fun acc x => insertSorted lt x acc) acc).Perm (acc ++ l) := by
  intro l
  induction l with
  | nil => intro acc; simp
  | cons x l ih =>
    intro acc
    simp only [List.foldl_cons]
    refine (ih (insertSorted lt x acc)).trans ?_
    refine (((insertSorted_perm lt x acc).append_right l).trans ?_)
    exact List.perm_middle.symm

theorem pySort_perm (lt : α → α → Bool) (l : List α) :
    (pySort lt l).Perm l := by
  simpa [pySort] using pySortAux_perm lt l []

theorem mem_pySort (lt : α → α → Bool) (l : List α) (x : α) :
    x ∈ pySort lt l ↔ x ∈ l :=
  (pySort_perm lt l).mem_iff

theorem insertSorted_pairwise_not (lt : α → α → Bool) (S : List α)
    (hasym : ∀ x ∈ S, ∀ y ∈ S, lt x y = true → lt y x = false)
    (htrans : ∀ x ∈ S, ∀ y ∈ S, ∀ z ∈ S,
      lt x y = true → lt z y = false → lt z x = false) :
    ∀ (a : α) (l : List α), a ∈ S → (∀ x ∈ l, x ∈ S) →
      l.Pairwise (fun x y => lt y x = false) →
      (insertSorted lt a l).Pairwise (fun x y => lt y x = false) := by
  intro a l
  induction l with
  | nil => intro _ _ _; simp [insertSorted]
  | cons b l ih =>
    intro haS hlS hp
    rw [List.pairwise_cons] at hp
    obtain ⟨hb, hpl⟩ := hp
    have hbS : b ∈ S := hlS b (by simp)
    simp only [insertSorted]
    by_cases h : lt a b
    · simp only [h, if_true]
      refine List.pairwise_cons.2 ⟨?_, List.pairwise_cons.2 ⟨hb, hpl⟩⟩
      intro y hy
      rcases List.mem_cons.1 hy with rfl | hy
      · exact hasym a haS y hbS h
      · exact htrans a haS b hbS y (hlS y (by simp [hy])) h (hb y hy)
    · simp only [h, if_false]
      refine List.pairwise_cons.2 ⟨?_, ?_⟩
      · intro y hy
        rcases ((insertSorted_perm lt a l).mem_iff).1 hy with hy'
        rcases List.mem_cons.1 hy' with rfl | hy''
        · rw [← Bool.not_eq_true]
          exact h
        · exact hb y hy''
      · exact ih haS (fun x hx => hlS x (by simp [hx])) hpl

theorem pySortAux_pairwise_not (lt : α → α → Bool) (S : List α)
    (hasym : ∀ x ∈ S, ∀ y ∈ S, lt x y = true → lt y x = false)
    (htrans : ∀ x ∈ S, ∀ y ∈ S, ∀ z ∈ S,
      lt x y = true → lt z y = false → lt z x = false) :
    ∀ (l acc : List α), (∀ x ∈ l, x ∈ S) → (∀ x ∈ acc, x ∈ S) →
      acc.Pairwise (fun x y => lt y x = false) →
      (l.foldl (fun acc x => insertSorted lt x acc) acc).Pairwise
        (fun x y => lt y x = false) := by
  intro l
  induction l with
  | nil => intro acc _ _ hacc; simpa using hacc
  | cons x l ih =>
    intro acc hl hacc hp
    simp only [List.foldl_cons]
    refine ih (insertSorted lt x acc) (fun y hy => hl y (by simp [hy])) ?_ ?_
    · intro y hy
      rcases ((insertSorted_perm lt x acc).mem_iff).1 hy with hy'
      rcases List.mem_cons.1 hy' with rfl | hy''
      · exact hl y (by simp)
      · exact hacc y hy''
    · exact insertSorted_pairwise_not lt S hasym htrans x acc
        (hl x (by simp)) hacc hp

theorem pySort_pairwise_not (lt : α → α → Bool) (l : List α)
    (hasym : ∀ x ∈ l, ∀ y ∈ l, lt x y = true → lt y x = false)
    (htrans : ∀ x ∈ l, ∀ y ∈ l, ∀ z ∈ l,
      lt x y = true → lt z y = false → lt z x = false) :
    (pySort lt l).Pairwise (fun x y => lt y x = false) := by
  have := pySortAux_pairwise_not lt l hasym htrans l [] (fun _ h => h)
    (by intro x hx; simp at hx) (by simp)
  simpa [pySort] using this

/-! ## Lemmas: dict operations -/

theorem dictLookup_insert_self (k : String) (v : α) :
    ∀ d : List (String × α), dictLookup k (dictInsert k v d) = some v := by
  intro d
  induction d with
  | nil => simp [dictInsert, dictLookup]
  | cons p d ih =>
    obtain ⟨k2, v2⟩ := p
    simp only [dictInsert]
    by_cases h : k2 = k
    · simp [h, dictLookup]
    · simp [h, dictLookup, ih]

theorem dictLookup_insert_ne (k k' : String) (v : α) (h : k' ≠ k) :
    ∀ d : List (String × α),
      dictLookup k' (dictInsert k v d) = dictLookup k' d := by
  have hk : ¬ k = k' := fun hh => h hh.symm
  intro d
  induction d with
  | nil => simp [dictInsert, dictLookup, hk]
  | cons p d ih =>
    obtain ⟨k2, v2⟩ := p
    simp only [dictInsert]
    by_cases h2 : k2 = k
    · subst h2
      simp only [if_pos rfl, dictLookup, if_neg hk]
    · rw [if_neg h2]
      simp only [dictLookup]
      by_cases h3 : k2 = k'
      · simp [h3]
      · simp [h3, ih]

theorem dictLookup_remove_ne (k k' : String) (h : k' ≠ k) :
    ∀ d : List (String × α),
      dictLookup k' (dictRemove k d) = dictLookup k' d := by
  have hk : ¬ k = k' := fun hh => h hh.symm
  intro d
  induction d with
  | nil => simp [dictRemove, dictLookup]
  | cons p d ih =>
    obtain ⟨k2, v2⟩ := p
    simp only [dictRemove]
    by_cases h2 : k2 = k
    · subst h2
      simp [dictLookup, hk]
    · rw [if_neg h2]
      simp only [dictLookup]
      by_cases h3 : k2 = k'
      · simp [h3]
      · simp [h3, ih]

theorem dictLookup_none_of_not_mem_keys (k : String) :
    ∀ d : List (String × α), k ∉ d.map Prod.fst → dictLookup k d = none := by
  intro d
  induction d with
  | nil => intro _; rfl
  | cons p d ih =>
    obtain ⟨k2, v2⟩ := p
    intro h
    simp only [List.map_cons, List.mem_cons] at h
    push_neg at h
    simp only [dictLookup]
    rw [if_neg (fun hh => h.1 hh.symm)]
    exact ih h.2

theorem mem_keys_of_dictLookup_isSome (k : String) :
    ∀ d : List (String × α),
      (dictLookup k d).isSome → k ∈ d.map Prod.fst := by
  intro d
  induction d with
  | nil => intro h; simp [dictLookup] at h
  | cons p d ih =>
    obtain ⟨k2, v2⟩ := p
    intro h
    simp only [dictLookup] at h
    by_cases h2 : k2 = k
    · subst h2
      simp
    · rw [if_neg h2] at h
      simp only [List.map_cons, List.mem_cons]
      exact Or.inr (ih h)

theorem dictLookup_remove_self (k : String) :
    ∀ d : List (String × α), (d.map Prod.fst).Nodup →
      dictLookup k (dictRemove k d) = none := by
  intro d
  induction d with
  | nil => intro _; rfl
  | cons p d ih =>
    obtain ⟨k2, v2⟩ := p
    intro hnd
    simp only [List.map_cons, List.nodup_cons] at hnd
    simp only [dictRemove]
    by_cases h2 : k2 = k
    · subst h2
      rw [if_pos rfl]
      exact dictLookup_none_of_not_mem_keys k2 d hnd.1
    · rw [if_neg h2]
      simp only [dictLookup]
      rw [if_neg h2]
      exact ih hnd.2

theorem mem_dictInsert_elim (k : String) (v : α) :
    ∀ (d : List (String × α)) (k3 : String) (v3 : α),
      (k3, v3) ∈ dictInsert k v d → (k3 = k ∧ v3 = v) ∨ (k3, v3) ∈ d := by
  intro d
  induction d with
  | nil =>
    intro k3 v3 h
    simp only [dictInsert, List.mem_singleton] at h
    exact Or.inl ⟨congrArg Prod.fst h, congrArg Prod.snd h⟩
  | cons p d ih =>
    obtain ⟨k2, v2⟩ := p
    intro k3 v3 h
    simp only [dictInsert] at h
    by_cases h2 : k2 = k
    · rw [if_pos h2] at h
      rcases List.mem_cons.1 h with heq | hmem
      · exact Or.inl ⟨congrArg Prod.fst heq, congrArg Prod.snd heq⟩
      · exact Or.inr (List.mem_cons.2 (Or.inr hmem))
    · rw [if_neg h2] at h
      rcases List.mem_cons.1 h with heq | hmem
      · exact Or.inr (List.mem_cons.2 (Or.inl heq))
      · rcases ih k3 v3 hmem with h' | h'
        · exact Or.inl h'
        · exact Or.inr (List.mem_cons.2 (Or.inr h'))

theorem dictInsert_keys_nodup (k : String) (v : α) :
    ∀ d : List (String × α), (d.map Prod.fst).Nodup →
      ((dictInsert k v d).map Prod.fst).Nodup := by
  intro d
  induction d with
  | nil => intro _; simp [dictInsert]
  | cons p d ih =>
    obtain ⟨k2, v2⟩ := p
    intro hnd
    simp only [List.map_cons, List.nodup_cons] at hnd
    simp only [dictInsert]
    by_cases h2 : k2 = k
    · subst h2
      simpa using hnd
    · rw [if_neg h2]
      simp only [List.map_cons, List.nodup_cons]
      refine ⟨?_, ih hnd.2⟩
      intro hmem
      rcases List.mem_map.1 hmem with ⟨⟨k3, v3⟩, hp, hk⟩
      rcases (mem_dictInsert_elim k v d k3 v3 hp) with h | h
      · have hk' : k3 = k2 := hk
        exact h2 (hk'.symm.trans h.1)
      · exact hnd.1 (List.mem_map.2 ⟨(k3, v3), h, hk⟩)

theorem dictLookup_mem (k : String) (v : α) :
    ∀ d : List (String × α), dictLookup k d = some v → (k, v) ∈ d := by
  intro d
  induction d with
  | nil => intro h; simp [dictLookup] at h
  | cons p d ih =>
    obtain ⟨k2, v2⟩ := p
    intro h
    simp only [dictLookup] at h
    by_cases h2 : k2 = k
    · rw [if_pos h2] at h
      subst h2
      cases h
      simp
    · rw [if_neg h2] at h
      exact List.mem_cons.2 (Or.inr (ih h))

/-! ## Lemmas: state store operations -/

theorem get_manga_state_mk_insert (t : String) (e : MangaEntry)
    (m : List (String × MangaEntry)) :
    (State.mk (dictInsert t e m)).get_manga_state t = e := by
  simp [State.get_manga_state, dictLookup_insert_self]

theorem get_manga_state_mk_insert_ne (t t' : String) (h : t' ≠ t)
    (e : MangaEntry) (m : List (String × MangaEntry)) :
    (State.mk (dictInsert t e m)).get_manga_state t' =
      (State.mk m).get_manga_state t' := by
  simp [State.get_manga_state, dictLookup_insert_ne _ _ _ h]

theorem get_downloaded_mk_insert (t : String) (e : MangaEntry)
    (m : List (String × MangaEntry)) :
    (State.mk (dictInsert t e m)).get_downloaded_chapters t = e.downloaded :=
  by
  unfold State.get_downloaded_chapters
  rw [get_manga_state_mk_insert]

theorem get_downloaded_mk_insert_ne (t t' : String) (h : t' ≠ t)
    (e : MangaEntry) (m : List (String × MangaEntry)) :
    (State.mk (dictInsert t e m)).get_downloaded_chapters t' =
      (State.mk m).get_downloaded_chapters t' := by
  unfold State.get_downloaded_chapters
  rw [get_manga_state_mk_insert_ne _ _ h]

theorem get_last_chapter_mk_insert (t : String) (e : MangaEntry)
    (m : List (String × MangaEntry)) :
    (State.mk (dictInsert t e m)).get_last_chapter t = e.last_chapter := by
  unfold State.get_last_chapter
  rw [get_manga_state_mk_insert]

theorem ensure_cases (now : Int) (s : State) (t : String) :
    s.ensure_manga_entry now t = s ∨
      (dictLookup t s.manga = none ∧
        s.ensure_manga_entry now t =
          State.mk (dictInsert t { created := some now } s.manga)) := by
  unfold State.ensure_manga_entry
  by_cases h : (dictLookup t s.manga).isSome
  · left; simp [h]
  · right
    refine ⟨Option.not_isSome_iff_eq_none.1 h, by simp [h]⟩

theorem ensure_downloaded (now : Int) (s : State) (t t' : String) :
    ((s.ensure_manga_entry now t).get_manga_state t').downloaded =
      (s.get_manga_state t').downloaded := by
  rcases ensure_cases now s t with h | ⟨hnone, h⟩
  · rw [h]
  · rw [h]
    by_cases ht : t' = t
    · subst ht
      rw [get_manga_state_mk_insert]
      simp [State.get_manga_state, hnone]
    · rw [get_manga_state_mk_insert_ne t t' ht]

theorem ensure_last_chapter (now : Int) (s : State) (t t' : String) :
    ((s.ensure_manga_entry now t).get_manga_state t').last_chapter =
      (s.get_manga_state t').last_chapter := by
  rcases ensure_cases now s t with h | ⟨hnone, h⟩
  · rw [h]
  · rw [h]
    by_cases ht : t' = t
    · subst ht
      rw [get_manga_state_mk_insert]
      simp [State.get_manga_state, hnone]
    · rw [get_manga_state_mk_insert_ne t t' ht]

theorem ensure_pending (now : Int) (s : State) (t t' : String) :
    ((s.ensure_manga_entry now t).get_manga_state t').pending_backup =
      (s.get_manga_state t').pending_backup := by
  rcases ensure_cases now s t with h | ⟨hnone, h⟩
  · rw [h]
  · rw [h]
    by_cases ht : t' = t
    · subst ht
      rw [get_manga_state_mk_insert]
      simp [State.get_manga_state, hnone]
    · rw [get_manga_state_mk_insert_ne t t' ht]

theorem contains_iff_mem (l : List String) (a : String) :
    l.contains a = true ↔ a ∈ l := by
  induction l with
  | nil => simp
  | cons b l ih => simp [List.contains_cons, ih]

theorem state_ok (s : State) : (CommitResult.ok s).state = s := rfl

theorem state_raised (s : State) : (CommitResult.raised s).state = s := rfl

/-- Branch equation: the label is already in `downloaded`, so the sort is
skipped and only `last_chapter` / `last_updated` are written. -/
theorem add_eq_already (now : Int) (s : State) (t ch : String)
    (hc : ((s.ensure_manga_entry now t).get_manga_state t).downloaded.contains
      ch = true) :
    s.add_downloaded_chapter now t ch = CommitResult.ok (State.mk (dictInsert
      t { (s.ensure_manga_entry now t).get_manga_state t with
          last_chapter := some ch, last_updated := some now }
      (s.ensure_manga_entry now t).manga)) := by
  simp only [State.add_downloaded_chapter]
  rw [if_pos hc]

/-- Branch equation: the label is new and every element's sort key
computes, so the appended list is sorted and `last_chapter` is set. -/
theorem add_eq_sorted (now : Int) (s : State) (t ch : String)
    (hc : ¬ ((s.ensure_manga_entry now t).get_manga_state
      t).downloaded.contains ch = true)
    (hall : (((s.ensure_manga_entry now t).get_manga_state t).downloaded ++
      [ch]).all (fun x => (downloadedKey x).isSome) = true) :
    s.add_downloaded_chapter now t ch = CommitResult.ok (State.mk (dictInsert
      t { (s.ensure_manga_entry now t).get_manga_state t with
          downloaded := pySort downloadedKeyLt
            (((s.ensure_manga_entry now t).get_manga_state t).downloaded ++
              [ch]),
          last_chapter := some ch, last_updated := some now }
      (s.ensure_manga_entry now t).manga)) := by
  simp only [State.add_downloaded_chapter]
  rw [if_neg hc, if_pos hall]

/-- Branch equation: the label is new and some sort key raises
`ValueError`; the append survives and nothing else is written. -/
theorem add_eq_raised (now : Int) (s : State) (t ch : String)
    (hc : ¬ ((s.ensure_manga_entry now t).get_manga_state
      t).downloaded.contains ch = true)
    (hall : ¬ (((s.ensure_manga_entry now t).get_manga_state t).downloaded ++
      [ch]).all (fun x => (downloadedKey x).isSome) = true) :
    s.add_downloaded_chapter now t ch = CommitResult.raised (State.mk
      (dictInsert t
        { (s.ensure_manga_entry now t).get_manga_state t with
          downloaded :=
            ((s.ensure_manga_entry now t).get_manga_state t).downloaded ++
              [ch] }
      (s.ensure_manga_entry now t).manga)) := by
  simp only [State.add_downloaded_chapter]
  rw [if_neg hc, if_neg hall]

/-- `add_downloaded_chapter` sets `last_chapter` to the raw label,
unconditionally, whenever it returns normally. -/
theorem add_ok_last_chapter (now : Int) (s : State) (t ch : String)
    (s' : State) (h : s.add_downloaded_chapter now t ch = .ok s') :
    s'.get_last_chapter t = some ch := by
  by_cases hc : ((s.ensure_manga_entry now t).get_manga_state
      t).downloaded.contains ch = true
  · rw [add_eq_already now s t ch hc] at h
    cases h
    unfold State.get_last_chapter
    rw [get_manga_state_mk_insert]
  · by_cases hall : (((s.ensure_manga_entry now t).get_manga_state
        t).downloaded ++ [ch]).all (fun x => (downloadedKey x).isSome) = true
    · rw [add_eq_sorted now s t ch hc hall] at h
      cases h
      unfold State.get_last_chapter
      rw [get_manga_state_mk_insert]
    · rw [add_eq_raised now s t ch hc hall] at h
      cases h

/-- When the sort key raises, the `last_chapter` assignment is never
reached — the stored label keeps its previous value — and the appended
label is nonetheless in `downloaded`. -/
theorem add_raised_state (now : Int) (s : State) (t ch : String)
    (s' : State) (h : s.add_downloaded_chapter now t ch = .raised s') :
    s'.get_last_chapter t = s.get_last_chapter t ∧
      s'.is_chapter_downloaded t ch = true := by
  by_cases hc : ((s.ensure_manga_entry now t).get_manga_state
      t).downloaded.contains ch = true
  · rw [add_eq_already now s t ch hc] at h
    cases h
  · by_cases hall : (((s.ensure_manga_entry now t).get_manga_state
        t).downloaded ++ [ch]).all (fun x => (downloadedKey x).isSome) = true
    · rw [add_eq_sorted now s t ch hc hall] at h
      cases h
    · rw [add_eq_raised now s t ch hc hall] at h
      cases h
      constructor
      · unfold State.get_last_chapter
        rw [get_manga_state_mk_insert]
        simp only []
        rw [show ((s.ensure_manga_entry now t).get_manga_state
          t).last_chapter = (s.get_manga_state t).last_chapter from
          ensure_last_chapter now s t t]
      · unfold State.is_chapter_downloaded State.get_downloaded_chapters
        rw [get_manga_state_mk_insert]
        simp only [contains_iff_mem]
        simp

/-- The `downloaded` list of the post-call in-memory state, in all three
branches. -/
theorem add_state_list_eq (now : Int) (s : State) (t ch : String) :
    (s.add_downloaded_chapter now t ch).state.get_downloaded_chapters t =
      (if (s.get_downloaded_chapters t).contains ch then
        s.get_downloaded_chapters t
      else if (s.get_downloaded_chapters t ++ [ch]).all
          (fun x => (downloadedKey x).isSome) then
        pySort downloadedKeyLt (s.get_downloaded_chapters t ++ [ch])
      else s.get_downloaded_chapters t ++ [ch]) := by
  have hens : ((s.ensure_manga_entry now t).get_manga_state t).downloaded =
      s.get_downloaded_chapters t := ensure_downloaded now s t t
  by_cases hc : (s.get_downloaded_chapters t).contains ch = true
  · rw [if_pos hc, add_eq_already now s t ch (by rw [hens]; exact hc),
      state_ok, get_downloaded_mk_insert]
    exact hens
  · by_cases hall : (s.get_downloaded_chapters t ++ [ch]).all
        (fun x => (downloadedKey x).isSome) = true
    · rw [if_neg hc, if_pos hall,
        add_eq_sorted now s t ch (by rw [hens]; exact hc)
          (by rw [hens]; exact hall),
        state_ok, get_downloaded_mk_insert]
      show pySort downloadedKeyLt
          (((s.ensure_manga_entry now t).get_manga_state t).downloaded ++
            [ch]) =
        pySort downloadedKeyLt (s.get_downloaded_chapters t ++ [ch])
      rw [hens]
    · rw [if_neg hc, if_neg hall,
        add_eq_raised now s t ch (by rw [hens]; exact hc)
          (by rw [hens]; exact hall),
        state_raised, get_downloaded_mk_insert]
      show ((s.ensure_manga_entry now t).get_manga_state t).downloaded ++
          [ch] =
        s.get_downloaded_chapters t ++ [ch]
      rw [hens]

theorem add_state_mem_self (now : Int) (s : State) (t ch : String) :
    (s.add_downloaded_chapter now t ch).state.is_chapter_downloaded t ch =
      true := by
  unfold State.is_chapter_downloaded
  rw [add_state_list_eq]
  simp only [contains_iff_mem]
  by_cases hc : ch ∈ s.get_downloaded_chapters t
  · rw [if_pos hc]
    exact hc
  · rw [if_neg hc]
    by_cases hall : (s.get_downloaded_chapters t ++ [ch]).all
        (fun x => (downloadedKey x).isSome) = true
    · rw [if_pos hall]
      simp [mem_pySort]
    · rw [if_neg hall]
      simp

theorem add_state_list_ne (now : Int) (s : State) (t t' ch : String)
    (ht : t' ≠ t) :
    (s.add_downloaded_chapter now t ch).state.get_downloaded_chapters t' =
      s.get_downloaded_chapters t' := by
  have hens : ((s.ensure_manga_entry now t).get_manga_state t').downloaded =
      (s.get_manga_state t').downloaded := ensure_downloaded now s t t'
  by_cases hc : ((s.ensure_manga_entry now t).get_manga_state
      t).downloaded.contains ch = true
  · rw [add_eq_already now s t ch hc, state_ok,
      get_downloaded_mk_insert_ne _ _ ht]
    exact hens
  · by_cases hall : (((s.ensure_manga_entry now t).get_manga_state
        t).downloaded ++ [ch]).all (fun x => (downloadedKey x).isSome) = true
    · rw [add_eq_sorted now s t ch hc hall, state_ok,
        get_downloaded_mk_insert_ne _ _ ht]
      exact hens
    · rw [add_eq_raised now s t ch hc hall, state_raised,
        get_downloaded_mk_insert_ne _ _ ht]
      exact hens

theorem add_state_mono (now : Int) (s : State) (t t' ch l : String)
    (h : s.is_chapter_downloaded t' l = true) :
    (s.add_downloaded_chapter now t ch).state.is_chapter_downloaded t' l =
      true := by
  by_cases ht : t' = t
  · subst ht
    unfold State.is_chapter_downloaded at h ⊢
    rw [add_state_list_eq]
    have hmem : l ∈ s.get_downloaded_chapters t' :=
      (contains_iff_mem _ _).1 h
    simp only [contains_iff_mem]
    by_cases hc : ch ∈ s.get_downloaded_chapters t'
    · rw [if_pos hc]
      exact hmem
    · rw [if_neg hc]
      by_cases hall : (s.get_downloaded_chapters t' ++ [ch]).all
          (fun x => (downloadedKey x).isSome) = true
      · rw [if_pos hall]
        rw [mem_pySort, List.mem_append]
        exact Or.inl hmem
      · rw [if_neg hall]
        exact List.mem_append.2 (Or.inl hmem)
  · unfold State.is_chapter_downloaded at h ⊢
    rw [add_state_list_ne now s t t' ch ht]
    exact h

theorem add_state_mem_elim (now : Int) (s : State) (t ch t' l : String)
    (h : (s.add_downloaded_chapter now t ch).state.is_chapter_downloaded t' l
      = true) :
    (t' = t ∧ l = ch) ∨ s.is_chapter_downloaded t' l = true := by
  by_cases ht : t' = t
  · subst ht
    unfold State.is_chapter_downloaded at h
    rw [add_state_list_eq, contains_iff_mem] at h
    by_cases hc : (s.get_downloaded_chapters t').contains ch = true
    · rw [if_pos hc] at h
      right
      unfold State.is_chapter_downloaded
      rw [contains_iff_mem]
      exact h
    · rw [if_neg hc] at h
      by_cases hall : (s.get_downloaded_chapters t' ++ [ch]).all
          (fun x => (downloadedKey x).isSome) = true
      · rw [if_pos hall, mem_pySort, List.mem_append] at h
        rcases h with h' | h'
        · right
          unfold State.is_chapter_downloaded
          rw [contains_iff_mem]
          exact h'
        · left
          exact ⟨rfl, by simpa using h'⟩
      · rw [if_neg hall, List.mem_append] at h
        rcases h with h' | h'
        · right
          unfold State.is_chapter_downloaded
          rw [contains_iff_mem]
          exact h'
        · left
          exact ⟨rfl, by simpa using h'⟩
  · right
    unfold State.is_chapter_downloaded at h ⊢
    rw [add_state_list_ne now s t t' ch ht] at h
    exact h

/-- `add_downloaded_chapter` leaves the pending-backup dict untouched in
every branch, raised or not (list-level). -/
theorem add_state_pending_list (now : Int) (s : State) (t t' : String)
    (ch : String) :
    ((s.add_downloaded_chapter now t ch).state.get_manga_state
        t').pending_backup =
      (s.get_manga_state t').pending_backup := by
  have hens : ((s.ensure_manga_entry now t).get_manga_state
      t').pending_backup = (s.get_manga_state t').pending_backup :=
    ensure_pending now s t t'
  have hgoal : ∀ e2 : MangaEntry,
      e2.pending_backup =
        ((s.ensure_manga_entry now t).get_manga_state t).pending_backup →
      ((State.mk (dictInsert t e2 (s.ensure_manga_entry now
        t).manga)).get_manga_state t').pending_backup =
        (s.get_manga_state t').pending_backup := by
    intro e2 he2
    by_cases ht : t' = t
    · subst ht
      rw [get_manga_state_mk_insert, he2]
      exact hens
    · rw [get_manga_state_mk_insert_ne _ _ ht]
      have : (State.mk (s.ensure_manga_entry now t).manga).get_manga_state
          t' = (s.ensure_manga_entry now t).get_manga_state t' := rfl
      rw [this]
      exact hens
  by_cases hc : ((s.ensure_manga_entry now t).get_manga_state
      t).downloaded.contains ch = true
  · rw [add_eq_already now s t ch hc, state_ok]
    exact hgoal _ rfl
  · by_cases hall : (((s.ensure_manga_entry now t).get_manga_state
        t).downloaded ++ [ch]).all (fun x => (downloadedKey x).isSome) = true
    · rw [add_eq_sorted now s t ch hc hall, state_ok]
      exact hgoal _ rfl
    · rw [add_eq_raised now s t ch hc hall, state_raised]
      exact hgoal _ rfl

theorem add_state_pending (now : Int) (s : State) (t t' ch l : String) :
    (s.add_downloaded_chapter now t ch).state.get_pending_backup t' l =
      s.get_pending_backup t' l := by
  unfold State.get_pending_backup
  rw [add_state_pending_list]

theorem mem_dictRemove_subset (k : String) :
    ∀ (d : List (String × α)) (k3 : String) (v3 : α),
      (k3, v3) ∈ dictRemove k d → (k3, v3) ∈ d := by
  intro d
  induction d with
  | nil => intro k3 v3 h; simp [dictRemove] at h
  | cons p d ih =>
    obtain ⟨k2, v2⟩ := p
    intro k3 v3 h
    simp only [dictRemove] at h
    by_cases h2 : k2 = k
    · rw [if_pos h2] at h
      exact List.mem_cons.2 (Or.inr h)
    · rw [if_neg h2] at h
      rcases List.mem_cons.1 h with heq | hmem
      · exact List.mem_cons.2 (Or.inl heq)
      · exact List.mem_cons.2 (Or.inr (ih k3 v3 hmem))

theorem dictRemove_keys_nodup (k : String) :
    ∀ d : List (String × α), (d.map Prod.fst).Nodup →
      ((dictRemove k d).map Prod.fst).Nodup := by
  intro d
  induction d with
  | nil => intro _; simp [dictRemove]
  | cons p d ih =>
    obtain ⟨k2, v2⟩ := p
    intro hnd
    simp only [List.map_cons, List.nodup_cons] at hnd
    simp only [dictRemove]
    by_cases h2 : k2 = k
    · rw [if_pos h2]
      exact hnd.2
    · rw [if_neg h2]
      simp only [List.map_cons, List.nodup_cons]
      refine ⟨?_, ih hnd.2⟩
      intro hmem
      rcases List.mem_map.1 hmem with ⟨⟨k3, v3⟩, hp, hk⟩
      have hp' : (k3, v3) ∈ d := mem_dictRemove_subset k d k3 v3 hp
      exact hnd.1 (List.mem_map.2 ⟨(k3, v3), hp', hk⟩)

/-- Lookup of a pending entry after writing a record for the same title. -/
theorem get_pending_mk_insert (t l : String) (e : MangaEntry)
    (m : List (String × MangaEntry)) :
    (State.mk (dictInsert t e m)).get_pending_backup t l =
      dictLookup l e.pending_backup := by
  unfold State.get_pending_backup
  rw [get_manga_state_mk_insert]

theorem get_pending_mk_insert_ne (t t' l : String) (h : t' ≠ t)
    (e : MangaEntry) (m : List (String × MangaEntry)) :
    (State.mk (dictInsert t e m)).get_pending_backup t' l =
      (State.mk m).get_pending_backup t' l := by
  unfold State.get_pending_backup
  rw [get_manga_state_mk_insert_ne _ _ h]

theorem get_pending_ensure (now : Int) (s : State) (t t' l : String) :
    (s.ensure_manga_entry now t).get_pending_backup t' l =
      s.get_pending_backup t' l := by
  unfold State.get_pending_backup
  rw [ensure_pending]

theorem clear_pending_self (s : State) (t ch : String) (hwf : PendingWF s t) :
    (s.clear_pending_backup t ch).get_pending_backup t ch = none := by
  simp only [State.clear_pending_backup]
  by_cases h : (dictLookup ch (s.get_manga_state t).pending_backup).isSome
  · rw [if_pos h, get_pending_mk_insert]
    exact dictLookup_remove_self ch _ hwf
  · rw [if_neg h]
    unfold State.get_pending_backup
    exact Option.not_isSome_iff_eq_none.1 h

theorem clear_pending_preserve (s : State) (t t' ch l : String)
    (h : t' ≠ t ∨ l ≠ ch) :
    (s.clear_pending_backup t ch).get_pending_backup t' l =
      s.get_pending_backup t' l := by
  simp only [State.clear_pending_backup]
  by_cases hg : (dictLookup ch (s.get_manga_state t).pending_backup).isSome
  · rw [if_pos hg]
    rcases h with ht | hl
    · rw [get_pending_mk_insert_ne _ _ _ ht]
    · by_cases ht : t' = t
      · subst ht
        rw [get_pending_mk_insert]
        unfold State.get_pending_backup
        exact dictLookup_remove_ne ch l hl _
      · rw [get_pending_mk_insert_ne _ _ _ ht]
  · rw [if_neg hg]

theorem clear_pending_none (s : State) (t t' ch l : String)
    (h : s.get_pending_backup t' l = none) :
    (s.clear_pending_backup t ch).get_pending_backup t' l = none := by
  by_cases hsame : t' = t ∧ l = ch
  · obtain ⟨ht, hl⟩ := hsame
    subst ht; subst hl
    simp only [State.clear_pending_backup]
    unfold State.get_pending_backup at h
    rw [h]
    simp only [Option.isSome_none, Bool.false_eq_true, if_false]
    unfold State.get_pending_backup
    exact h
  · rw [clear_pending_preserve s t t' ch l ?_]
    · exact h
    · rcases not_and_or.1 hsame with h' | h'
      · exact Or.inl h'
      · exact Or.inr h'

theorem set_pending_lookup_self (now : Int) (s : State) (t l b u : String) :
    (s.set_pending_backup now t l b u).get_pending_backup t l =
      some ((s.get_pending_backup t l).getD ⟨now, b, u⟩) := by
  have hpe := get_pending_ensure now s t t l
  simp only [State.set_pending_backup]
  by_cases h : (dictLookup l
      ((s.ensure_manga_entry now t).get_manga_state t).pending_backup).isSome
  · rw [if_pos h]
    have h2 : ((s.ensure_manga_entry now t).get_pending_backup t l).isSome := h
    rw [hpe] at h2
    rcases Option.isSome_iff_exists.1 h2 with ⟨p, hp⟩
    have hpl : (s.ensure_manga_entry now t).get_pending_backup t l = some p := by
      rw [hpe]; exact hp
    rw [hpl, hp]
    rfl
  · rw [if_neg h]
    rw [get_pending_mk_insert]
    have h2 : (s.ensure_manga_entry now t).get_pending_backup t l =
        (none : Option PendingEntry) := by
      unfold State.get_pending_backup
      exact Option.not_isSome_iff_eq_none.1 h
    rw [hpe] at h2
    rw [h2]
    have : dictLookup l (dictInsert l
        (⟨now, b, u⟩ : PendingEntry)
        ((s.ensure_manga_entry now t).get_manga_state t).pending_backup) =
        some (⟨now, b, u⟩ : PendingEntry) := dictLookup_insert_self _ _ _
    simpa using this

theorem set_pending_preserve (now : Int) (s : State) (t t' k l b u : String)
    (h : t' ≠ t ∨ l ≠ k) :
    (s.set_pending_backup now t k b u).get_pending_backup t' l =
      s.get_pending_backup t' l := by
  simp only [State.set_pending_backup]
  by_cases hg : (dictLookup k
      ((s.ensure_manga_entry now t).get_manga_state t).pending_backup).isSome
  · rw [if_pos hg]
    exact get_pending_ensure now s t t' l
  · rw [if_neg hg]
    rcases h with ht | hl
    · rw [get_pending_mk_insert_ne _ _ _ ht]
      exact get_pending_ensure now s t t' l
    · by_cases ht : t' = t
      · subst ht
        rw [get_pending_mk_insert]
        have : dictLookup l (dictInsert k
            (⟨now, b, u⟩ : PendingEntry)
            ((s.ensure_manga_entry now t').get_manga_state t').pending_backup) =
            dictLookup l
              ((s.ensure_manga_entry now t').get_manga_state t').pending_backup :=
          dictLookup_insert_ne _ _ _ hl _
        rw [show (({ (s.ensure_manga_entry now t').get_manga_state t' with
            pending_backup := dictInsert k (⟨now, b, u⟩ : PendingEntry)
              ((s.ensure_manga_entry now t').get_manga_state t').pending_backup } :
            MangaEntry)).pending_backup = dictInsert k
              (⟨now, b, u⟩ : PendingEntry)
              ((s.ensure_manga_entry now t').get_manga_state t').pending_backup
          from rfl]
        rw [this]
        exact get_pending_ensure now s t' t' l
      · rw [get_pending_mk_insert_ne _ _ _ ht]
        exact get_pending_ensure now s t t' l

theorem set_pending_of_isSome (now : Int) (s : State) (t l b u : String)
    (h : (s.get_pending_backup t l).isSome) :
    s.set_pending_backup now t l b u = s := by
  have hentry : (dictLookup t s.manga).isSome := by
    by_contra hc
    rw [Option.not_isSome_iff_eq_none] at hc
    unfold State.get_pending_backup State.get_manga_state at h
    rw [hc] at h
    simp [dictLookup] at h
  have hens : s.ensure_manga_entry now t = s := by
    unfold State.ensure_manga_entry
    rw [if_pos hentry]
  simp only [State.set_pending_backup]
  rw [hens]
  unfold State.get_pending_backup at h
  rw [if_pos h]

/-! ### `PendingWF` preservation -/

theorem pendingWF_add (now : Int) (s : State) (t t' ch : String)
    (h : PendingWF s t') :
    PendingWF (s.add_downloaded_chapter now t ch).state t' := by
  unfold PendingWF
  rw [add_state_pending_list]
  exact h

theorem pendingWF_clear (s : State) (t t' ch : String) (h : PendingWF s t') :
    PendingWF (s.clear_pending_backup t ch) t' := by
  unfold PendingWF
  simp only [State.clear_pending_backup]
  by_cases hg : (dictLookup ch (s.get_manga_state t).pending_backup).isSome
  · rw [if_pos hg]
    by_cases ht : t' = t
    · subst ht
      rw [get_manga_state_mk_insert]
      exact dictRemove_keys_nodup ch _ h
    · rw [get_manga_state_mk_insert_ne _ _ ht]
      exact h
  · rw [if_neg hg]
    exact h

theorem pendingWF_set (now : Int) (s : State) (t t' k b u : String)
    (h : PendingWF s t') :
    PendingWF (s.set_pending_backup now t k b u) t' := by
  unfold PendingWF
  have hwfe : (((s.ensure_manga_entry now t).get_manga_state t').pending_backup.map
      Prod.fst).Nodup := by
    rw [ensure_pending]
    exact h
  simp only [State.set_pending_backup]
  by_cases hg : (dictLookup k
      ((s.ensure_manga_entry now t).get_manga_state t).pending_backup).isSome
  · rw [if_pos hg]
    exact hwfe
  · rw [if_neg hg]
    by_cases ht : t' = t
    · subst ht
      rw [get_manga_state_mk_insert]
      refine dictInsert_keys_nodup k _ _ ?_
      rw [ensure_pending]
      exact h
    · rw [get_manga_state_mk_insert_ne _ _ ht]
      exact hwfe

/-! ### Downloaded-set preservation -/

theorem clear_downloaded (s : State) (t t' ch : String) :
    (s.clear_pending_backup t ch).get_downloaded_chapters t' =
      s.get_downloaded_chapters t' := by
  simp only [State.clear_pending_backup]
  by_cases hg : (dictLookup ch (s.get_manga_state t).pending_backup).isSome
  · rw [if_pos hg]
    unfold State.get_downloaded_chapters
    by_cases ht : t' = t
    · subst ht
      rw [get_manga_state_mk_insert]
    · rw [get_manga_state_mk_insert_ne _ _ ht]
  · rw [if_neg hg]

theorem set_downloaded (now : Int) (s : State) (t t' k b u : String) :
    (s.set_pending_backup now t k b u).get_downloaded_chapters t' =
      s.get_downloaded_chapters t' := by
  simp only [State.set_pending_backup]
  by_cases hg : (dictLookup k
      ((s.ensure_manga_entry now t).get_manga_state t).pending_backup).isSome
  · rw [if_pos hg]
    unfold State.get_downloaded_chapters
    rw [ensure_downloaded]
  · rw [if_neg hg]
    unfold State.get_downloaded_chapters
    by_cases ht : t' = t
    · subst ht
      rw [get_manga_state_mk_insert]
      exact ensure_downloaded now s t' t'
    · rw [get_manga_state_mk_insert_ne _ _ ht]
      exact ensure_downloaded now s t t'

/-! ### Phase lemmas: `processPrimary` -/

theorem processPrimary_decisions (title psrc purl : String) :
    ∀ (plist : List (String × Chapter)) (st : State),
      (processPrimary title psrc purl plist st).1 =
        plist.map (fun e => mkChapterWithSource e.2 psrc purl false) := by
  intro plist
  induction plist with
  | nil => intro st; rfl
  | cons p rest ih =>
    intro st
    obtain ⟨ch_num, ch⟩ := p
    simp only [processPrimary, List.map_cons]
    rw [ih]

theorem processPrimary_downloaded (title psrc purl : String) :
    ∀ (plist : List (String × Chapter)) (st : State) (t' : String),
      ((processPrimary title psrc purl plist st).2).get_downloaded_chapters t' =
        st.get_downloaded_chapters t' := by
  intro plist
  induction plist with
  | nil => intro st t'; rfl
  | cons p rest ih =>
    intro st t'
    obtain ⟨ch_num, ch⟩ := p
    simp only [processPrimary]
    rw [ih, clear_downloaded]

theorem processPrimary_pendingWF (title psrc purl : String) :
    ∀ (plist : List (String × Chapter)) (st : State) (t' : String),
      PendingWF st t' → PendingWF ((processPrimary title psrc purl plist st).2) t' := by
  intro plist
  induction plist with
  | nil => intro st t' h; exact h
  | cons p rest ih =>
    intro st t' h
    obtain ⟨ch_num, ch⟩ := p
    simp only [processPrimary]
    exact ih _ _ (pendingWF_clear _ _ _ _ h)

theorem processPrimary_pending_preserve (title psrc purl : String) :
    ∀ (plist : List (String × Chapter)) (st : State) (t' l : String),
      (t' ≠ title ∨ l ∉ plist.map Prod.fst) →
      ((processPrimary title psrc purl plist st).2).get_pending_backup t' l =
        st.get_pending_backup t' l := by
  intro plist
  induction plist with
  | nil => intro st t' l _; rfl
  | cons p rest ih =>
    intro st t' l h
    obtain ⟨ch_num, ch⟩ := p
    simp only [processPrimary]
    rcases h with ht | hl
    · rw [ih _ _ _ (Or.inl ht), clear_pending_preserve _ _ _ _ _ (Or.inl ht)]
    · simp only [List.map_cons, List.mem_cons] at hl
      push_neg at hl
      rw [ih _ _ _ (Or.inr hl.2), clear_pending_preserve _ _ _ _ _ (Or.inr hl.1)]

theorem processPrimary_pending_none (title psrc purl : String) :
    ∀ (plist : List (String × Chapter)) (st : State) (l : String),
      st.get_pending_backup title l = none →
      ((processPrimary title psrc purl plist st).2).get_pending_backup title l =
        none := by
  intro plist
  induction plist with
  | nil => intro st l h; exact h
  | cons p rest ih =>
    intro st l h
    obtain ⟨ch_num, ch⟩ := p
    simp only [processPrimary]
    exact ih _ _ (clear_pending_none _ _ _ _ _ h)

theorem processPrimary_pending_cleared (title psrc purl : String) :
    ∀ (plist : List (String × Chapter)) (st : State) (l : String),
      PendingWF st title → l ∈ plist.map Prod.fst →
      ((processPrimary title psrc purl plist st).2).get_pending_backup title l =
        none := by
  intro plist
  induction plist with
  | nil => intro st l _ h; simp at h
  | cons p rest ih =>
    intro st l hwf hl
    obtain ⟨ch_num, ch⟩ := p
    simp only [processPrimary]
    simp only [List.map_cons, List.mem_cons] at hl
    by_cases heq : l = ch_num
    · subst heq
      exact processPrimary_pending_none title psrc purl rest _ l
        (clear_pending_self st title l hwf)
    · rcases hl with h' | h'
      · exact absurd h' heq
      · exact ih _ _ (pendingWF_clear _ _ _ _ hwf) h'

/-! ### Phase lemmas: `processBackups` -/

theorem processBackups_cons_skip (title : String) (delay now : Int)
    (primary : List (String × Chapter)) (ch_num : String) (ch : Chapter)
    (bsrc burl : String) (rest : List (String × Chapter × String × String))
    (st : State) (h1 : (dictLookup ch_num primary).isSome) :
    processBackups title delay now primary ((ch_num, ch, bsrc, burl) :: rest)
        st = processBackups title delay now primary rest st := by
  simp only [processBackups]
  rw [if_pos h1]

theorem processBackups_cons_emit (title : String) (delay now : Int)
    (primary : List (String × Chapter)) (ch_num : String) (ch : Chapter)
    (bsrc burl : String) (rest : List (String × Chapter × String × String))
    (st : State) (p : PendingEntry)
    (h1 : ¬ (dictLookup ch_num primary).isSome)
    (h2 : st.get_pending_backup title ch_num = some p)
    (h3 : delay ≤ Int.fdiv (now - p.first_seen) 86400) :
    processBackups title delay now primary ((ch_num, ch, bsrc, burl) :: rest)
        st =
      (mkChapterWithSource ch bsrc burl true ::
          (processBackups title delay now primary rest st).1,
        (processBackups title delay now primary rest st).2) := by
  simp only [processBackups]
  rw [if_neg h1]
  split
  · rename_i p' heq
    rw [h2] at heq
    cases heq
    rw [if_pos h3]
  · rename_i heq
    rw [h2] at heq
    cases heq

theorem processBackups_cons_wait (title : String) (delay now : Int)
    (primary : List (String × Chapter)) (ch_num : String) (ch : Chapter)
    (bsrc burl : String) (rest : List (String × Chapter × String × String))
    (st : State) (p : PendingEntry)
    (h1 : ¬ (dictLookup ch_num primary).isSome)
    (h2 : st.get_pending_backup title ch_num = some p)
    (h3 : ¬ delay ≤ Int.fdiv (now - p.first_seen) 86400) :
    processBackups title delay now primary ((ch_num, ch, bsrc, burl) :: rest)
        st = processBackups title delay now primary rest st := by
  simp only [processBackups]
  rw [if_neg h1]
  split
  · rename_i p' heq
    rw [h2] at heq
    cases heq
    rw [if_neg h3]
  · rename_i heq
    rw [h2] at heq
    cases heq

theorem processBackups_cons_new (title : String) (delay now : Int)
    (primary : List (String × Chapter)) (ch_num : String) (ch : Chapter)
    (bsrc burl : String) (rest : List (String × Chapter × String × String))
    (st : State)
    (h1 : ¬ (dictLookup ch_num primary).isSome)
    (h2 : st.get_pending_backup title ch_num = none) :
    processBackups title delay now primary ((ch_num, ch, bsrc, burl) :: rest)
        st =
      processBackups title delay now primary rest
        (st.set_pending_backup now title ch_num bsrc ch.url) := by
  simp only [processBackups]
  rw [if_neg h1]
  split
  · rename_i p' heq
    rw [h2] at heq
    cases heq
  · rfl

theorem processBackups_downloaded (title : String) (delay now : Int)
    (primary : List (String × Chapter)) :
    ∀ (blist : List (String × Chapter × String × String)) (st : State)
      (t' : String),
      ((processBackups title delay now primary blist st).2).get_downloaded_chapters
          t' = st.get_downloaded_chapters t' := by
  intro blist
  induction blist with
  | nil => intro st t'; rfl
  | cons e rest ih =>
    intro st t'
    obtain ⟨ch_num, ch, bsrc, burl⟩ := e
    by_cases hskip : (dictLookup ch_num primary).isSome
    · rw [processBackups_cons_skip _ _ _ _ _ _ _ _ _ _ hskip]
      exact ih st t'
    · cases hpend : st.get_pending_backup title ch_num with
      | some p =>
        by_cases hdel : delay ≤ Int.fdiv (now - p.first_seen) 86400
        · rw [processBackups_cons_emit _ _ _ _ _ _ _ _ _ _ p hskip hpend hdel]
          exact ih st t'
        · rw [processBackups_cons_wait _ _ _ _ _ _ _ _ _ _ p hskip hpend hdel]
          exact ih st t'
      | none =>
        rw [processBackups_cons_new _ _ _ _ _ _ _ _ _ _ hskip hpend]
        rw [ih, set_downloaded]

theorem processBackups_pendingWF (title : String) (delay now : Int)
    (primary : List (String × Chapter)) :
    ∀ (blist : List (String × Chapter × String × String)) (st : State)
      (t' : String), PendingWF st t' →
      PendingWF ((processBackups title delay now primary blist st).2) t' := by
  intro blist
  induction blist with
  | nil => intro st t' h; exact h
  | cons e rest ih =>
    intro st t' h
    obtain ⟨ch_num, ch, bsrc, burl⟩ := e
    by_cases hskip : (dictLookup ch_num primary).isSome
    · rw [processBackups_cons_skip _ _ _ _ _ _ _ _ _ _ hskip]
      exact ih st t' h
    · cases hpend : st.get_pending_backup title ch_num with
      | some p =>
        by_cases hdel : delay ≤ Int.fdiv (now - p.first_seen) 86400
        · rw [processBackups_cons_emit _ _ _ _ _ _ _ _ _ _ p hskip hpend hdel]
          exact ih st t' h
        · rw [processBackups_cons_wait _ _ _ _ _ _ _ _ _ _ p hskip hpend hdel]
          exact ih st t' h
      | none =>
        rw [processBackups_cons_new _ _ _ _ _ _ _ _ _ _ hskip hpend]
        exact ih _ t' (pendingWF_set _ _ _ _ _ _ _ h)

theorem processBackups_pending_preserve (title : String) (delay now : Int)
    (primary : List (String × Chapter)) :
    ∀ (blist : List (String × Chapter × String × String)) (st : State)
      (t' l : String), (t' ≠ title ∨ l ∉ blist.map Prod.fst) →
      ((processBackups title delay now primary blist st).2).get_pending_backup
          t' l = st.get_pending_backup t' l := by
  intro blist
  induction blist with
  | nil => intro st t' l _; rfl
  | cons e rest ih =>
    intro st t' l h
    obtain ⟨ch_num, ch, bsrc, burl⟩ := e
    have hrest : t' ≠ title ∨ l ∉ rest.map Prod.fst := by
      rcases h with ht | hl
      · exact Or.inl ht
      · simp only [List.map_cons, List.mem_cons] at hl
        push_neg at hl
        exact Or.inr hl.2
    have hkey : t' ≠ title ∨ l ≠ ch_num := by
      rcases h with ht | hl
      · exact Or.inl ht
      · simp only [List.map_cons, List.mem_cons] at hl
        push_neg at hl
        exact Or.inr hl.1
    by_cases hskip : (dictLookup ch_num primary).isSome
    · rw [processBackups_cons_skip _ _ _ _ _ _ _ _ _ _ hskip]
      exact ih st t' l hrest
    · cases hpend : st.get_pending_backup title ch_num with
      | some p =>
        by_cases hdel : delay ≤ Int.fdiv (now - p.first_seen) 86400
        · rw [processBackups_cons_emit _ _ _ _ _ _ _ _ _ _ p hskip hpend hdel]
          exact ih st t' l hrest
        · rw [processBackups_cons_wait _ _ _ _ _ _ _ _ _ _ p hskip hpend hdel]
          exact ih st t' l hrest
      | none =>
        rw [processBackups_cons_new _ _ _ _ _ _ _ _ _ _ hskip hpend]
        rw [ih _ _ _ hrest]
        exact set_pending_preserve now st title t' ch_num l bsrc ch.url hkey

theorem processBackups_decisions_mem (title : String) (delay now : Int)
    (primary : List (String × Chapter)) :
    ∀ (blist : List (String × Chapter × String × String)) (st : State)
      (d : ChapterWithSource),
      d ∈ (processBackups title delay now primary blist st).1 →
      ∃ k ch bs bu, (k, ch, bs, bu) ∈ blist ∧
        d = mkChapterWithSource ch bs bu true ∧
        dictLookup k primary = none := by
  intro blist
  induction blist with
  | nil => intro st d hd; simp [processBackups] at hd
  | cons e rest ih =>
    intro st d hd
    obtain ⟨ch_num, ch, bsrc, burl⟩ := e
    by_cases hskip : (dictLookup ch_num primary).isSome
    · rw [processBackups_cons_skip _ _ _ _ _ _ _ _ _ _ hskip] at hd
      rcases ih st d hd with ⟨k, ch', bs, bu, hmem, hdd, hnp⟩
      exact ⟨k, ch', bs, bu, List.mem_cons.2 (Or.inr hmem), hdd, hnp⟩
    · cases hpend : st.get_pending_backup title ch_num with
      | some p =>
        by_cases hdel : delay ≤ Int.fdiv (now - p.first_seen) 86400
        · rw [processBackups_cons_emit _ _ _ _ _ _ _ _ _ _ p hskip hpend hdel]
            at hd
          rcases List.mem_cons.1 hd with rfl | hd'
          · exact ⟨ch_num, ch, bsrc, burl, List.mem_cons.2 (Or.inl rfl), rfl,
              Option.not_isSome_iff_eq_none.1 hskip⟩
          · rcases ih st d hd' with ⟨k, ch', bs, bu, hmem, hdd, hnp⟩
            exact ⟨k, ch', bs, bu, List.mem_cons.2 (Or.inr hmem), hdd, hnp⟩
        · rw [processBackups_cons_wait _ _ _ _ _ _ _ _ _ _ p hskip hpend hdel]
            at hd
          rcases ih st d hd with ⟨k, ch', bs, bu, hmem, hdd, hnp⟩
          exact ⟨k, ch', bs, bu, List.mem_cons.2 (Or.inr hmem), hdd, hnp⟩
      | none =>
        rw [processBackups_cons_new _ _ _ _ _ _ _ _ _ _ hskip hpend] at hd
        rcases ih _ d hd with ⟨k, ch', bs, bu, hmem, hdd, hnp⟩
        exact ⟨k, ch', bs, bu, List.mem_cons.2 (Or.inr hmem), hdd, hnp⟩

theorem processBackups_numbers_sublist (title : String) (delay now : Int)
    (primary : List (String × Chapter)) :
    ∀ (blist : List (String × Chapter × String × String)) (st : State),
      (∀ e ∈ blist, (e.2.1).number = e.1) →
      ((processBackups title delay now primary blist st).1.map
        ChapterWithSource.number).Sublist (blist.map Prod.fst) := by
  intro blist
  induction blist with
  | nil => intro st _; simp [processBackups]
  | cons e rest ih =>
    intro st hval
    obtain ⟨ch_num, ch, bsrc, burl⟩ := e
    have hvrest : ∀ e ∈ rest, (e.2.1).number = e.1 := fun e he =>
      hval e (List.mem_cons.2 (Or.inr he))
    have hvhead : ch.number = ch_num := hval (ch_num, ch, bsrc, burl)
      (List.mem_cons.2 (Or.inl rfl))
    simp only [List.map_cons]
    by_cases hskip : (dictLookup ch_num primary).isSome
    · rw [processBackups_cons_skip _ _ _ _ _ _ _ _ _ _ hskip]
      exact (ih st hvrest).cons ch_num
    · cases hpend : st.get_pending_backup title ch_num with
      | some p =>
        by_cases hdel : delay ≤ Int.fdiv (now - p.first_seen) 86400
        · rw [processBackups_cons_emit _ _ _ _ _ _ _ _ _ _ p hskip hpend hdel]
          simp only [List.map_cons]
          rw [show (mkChapterWithSource ch bsrc burl true).number = ch_num from
            hvhead]
          exact (ih st hvrest).cons₂ ch_num
        · rw [processBackups_cons_wait _ _ _ _ _ _ _ _ _ _ p hskip hpend hdel]
          exact (ih st hvrest).cons ch_num
      | none =>
        rw [processBackups_cons_new _ _ _ _ _ _ _ _ _ _ hskip hpend]
        exact (ih _ hvrest).cons ch_num

/-! ### Scan lemmas -/

theorem mem_newChapters (st : State) (title : String) (lnum : ℚ)
    (l : List Chapter) (ch : Chapter) (h : ch ∈ newChapters st title lnum l) :
    ch ∈ l ∧ lnum < ch.numeric ∧
      st.is_chapter_downloaded title ch.number = false := by
  unfold newChapters at h
  rcases List.mem_filter.1 h with ⟨h1, h2⟩
  simp only [Bool.and_eq_true, decide_eq_true_eq, Bool.not_eq_true'] at h2
  exact ⟨h1, h2.1, h2.2⟩

theorem foldlInsert_nodup :
    ∀ (l : List Chapter) (acc : List (String × Chapter)),
      (acc.map Prod.fst).Nodup →
      ((l.foldl (fun d ch => dictInsert ch.number ch d) acc).map
        Prod.fst).Nodup := by
  intro l
  induction l with
  | nil => intro acc h; exact h
  | cons ch l ih =>
    intro acc h
    simp only [List.foldl_cons]
    exact ih _ (dictInsert_keys_nodup _ _ _ h)

theorem foldlInsert_mem (P : String × Chapter → Prop) :
    ∀ (l : List Chapter) (acc : List (String × Chapter)),
      (∀ e ∈ acc, P e) → (∀ ch ∈ l, P (ch.number, ch)) →
      ∀ e ∈ l.foldl (fun d ch => dictInsert ch.number ch d) acc, P e := by
  intro l
  induction l with
  | nil => intro acc hacc _ e he; exact hacc e he
  | cons ch l ih =>
    intro acc hacc hl e he
    simp only [List.foldl_cons] at he
    refine ih _ ?_ (fun c hc => hl c (List.mem_cons.2 (Or.inr hc))) e he
    intro e' he'
    obtain ⟨k3, v3⟩ := e'
    rcases mem_dictInsert_elim _ _ _ _ _ he' with ⟨hk, hv⟩ | hmem
    · rw [hk, hv]
      exact hl ch (List.mem_cons.2 (Or.inl rfl))
    · exact hacc _ hmem

theorem scanPrimary_keys_nodup (fetch : Listing) (st : State) (title : String)
    (lnum : ℚ) (src : SourceCfg) :
    ((scanPrimary fetch st title lnum src).map Prod.fst).Nodup := by
  unfold scanPrimary
  split
  · simp
  · exact foldlInsert_nodup _ _ (by simp)

theorem scanPrimary_mem (fetch : Listing) (st : State) (title : String)
    (lnum : ℚ) (src : SourceCfg) (e : String × Chapter)
    (he : e ∈ scanPrimary fetch st title lnum src) :
    (e.2).number = e.1 ∧ st.is_chapter_downloaded title (e.2).number = false ∧
      lnum < (e.2).numeric := by
  unfold scanPrimary at he
  revert he
  split
  · intro he; simp at he
  · intro he
    refine foldlInsert_mem
      (fun e => (e.2).number = e.1 ∧
        st.is_chapter_downloaded title (e.2).number = false ∧
        lnum < (e.2).numeric) _ [] (by simp) ?_ e he
    intro ch hch
    rcases mem_newChapters st title lnum _ ch hch with ⟨_, hlt, hdl⟩
    exact ⟨rfl, hdl, hlt⟩

theorem foldlBInsert_nodup (primary : List (String × Chapter)) (ss su : String) :
    ∀ (l : List Chapter) (acc : List (String × Chapter × String × String)),
      (acc.map Prod.fst).Nodup →
      ((l.foldl (fun d ch =>
          if (dictLookup ch.number primary).isSome then d
          else dictInsert ch.number (ch, ss, su) d) acc).map Prod.fst).Nodup := by
  intro l
  induction l with
  | nil => intro acc h; exact h
  | cons ch l ih =>
    intro acc h
    simp only [List.foldl_cons]
    by_cases hg : (dictLookup ch.number primary).isSome
    · rw [if_pos hg]
      exact ih _ h
    · rw [if_neg hg]
      exact ih _ (dictInsert_keys_nodup _ _ _ h)

theorem foldlBInsert_mem (st : State) (title : String) (lnum : ℚ)
    (primary : List (String × Chapter)) (ss su : String)
    (P : String × Chapter × String × String → Prop)
    (hP : ∀ ch : Chapter, st.is_chapter_downloaded title ch.number = false →
      lnum < ch.numeric → dictLookup ch.number primary = none →
      P (ch.number, ch, ss, su)) :
    ∀ (l : List Chapter) (acc : List (String × Chapter × String × String)),
      (∀ e ∈ acc, P e) →
      (∀ ch ∈ l, st.is_chapter_downloaded title ch.number = false ∧
        lnum < ch.numeric) →
      ∀ e ∈ l.foldl (fun d ch =>
          if (dictLookup ch.number primary).isSome then d
          else dictInsert ch.number (ch, ss, su) d) acc, P e := by
  intro l
  induction l with
  | nil => intro acc hacc _ e he; exact hacc e he
  | cons ch l ih =>
    intro acc hacc hl e he
    simp only [List.foldl_cons] at he
    have hch := hl ch (List.mem_cons.2 (Or.inl rfl))
    have hlrest : ∀ c ∈ l, st.is_chapter_downloaded title c.number = false ∧
        lnum < c.numeric := fun c hc => hl c (List.mem_cons.2 (Or.inr hc))
    by_cases hg : (dictLookup ch.number primary).isSome
    · rw [if_pos hg] at he
      exact ih acc hacc hlrest e he
    · rw [if_neg hg] at he
      refine ih _ ?_ hlrest e he
      intro e' he'
      obtain ⟨k3, v3⟩ := e'
      rcases mem_dictInsert_elim _ _ _ _ _ he' with ⟨hk, hv⟩ | hmem
      · rw [hk, hv]
        exact hP ch hch.1 hch.2 (Option.not_isSome_iff_eq_none.1 hg)
      · exact hacc _ hmem

theorem scanBackups_keys_nodup (fetch : Listing) (st : State) (title : String)
    (lnum : ℚ) (primary : List (String × Chapter)) :
    ∀ (srcs : List SourceCfg) (b : List (String × Chapter × String × String)),
      (b.map Prod.fst).Nodup →
      ((scanBackups fetch st title lnum primary srcs b).map Prod.fst).Nodup := by
  intro srcs
  induction srcs with
  | nil => intro b h; exact h
  | cons src rest ih =>
    intro b h
    simp only [scanBackups]
    split
    · exact ih b h
    · exact ih _ (foldlBInsert_nodup primary src.source src.url _ b h)

theorem scanBackups_mem (fetch : Listing) (st : State) (title : String)
    (lnum : ℚ) (primary : List (String × Chapter)) :
    ∀ (srcs : List SourceCfg) (b : List (String × Chapter × String × String)),
      (∀ e ∈ b, (e.2.1).number = e.1 ∧
        st.is_chapter_downloaded title (e.2.1).number = false ∧
        lnum < (e.2.1).numeric ∧ dictLookup e.1 primary = none) →
      ∀ e ∈ scanBackups fetch st title lnum primary srcs b,
        (e.2.1).number = e.1 ∧
          st.is_chapter_downloaded title (e.2.1).number = false ∧
          lnum < (e.2.1).numeric ∧ dictLookup e.1 primary = none := by
  intro srcs
  induction srcs with
  | nil => intro b hb e he; exact hb e he
  | cons src rest ih =>
    intro b hb e he
    simp only [scanBackups] at he
    revert he
    split
    · intro he; exact ih b hb e he
    · intro he
      refine ih _ ?_ e he
      refine foldlBInsert_mem st title lnum primary src.source src.url _ ?_ _ b hb ?_
      · intro ch hdl hlt hnp
        exact ⟨rfl, hdl, hlt, hnp⟩
      · intro ch hch
        rcases mem_newChapters st title lnum _ ch hch with ⟨_, hlt, hdl⟩
        exact ⟨hdl, hlt⟩

/-! ### Emission characterization for pending backup chapters -/

theorem processBackups_emits (title : String) (delay now : Int)
    (primary : List (String × Chapter)) :
    ∀ (blist : List (String × Chapter × String × String)) (st : State)
      (L : String) (ch : Chapter) (bs bu : String) (p : PendingEntry),
      (blist.map Prod.fst).Nodup →
      (L, ch, bs, bu) ∈ blist →
      dictLookup L primary = none →
      st.get_pending_backup title L = some p →
      delay ≤ Int.fdiv (now - p.first_seen) 86400 →
      mkChapterWithSource ch bs bu true ∈
        (processBackups title delay now primary blist st).1 := by
  intro blist
  induction blist with
  | nil => intro st L ch bs bu p _ hmem; simp at hmem
  | cons e rest ih =>
    intro st L ch bs bu p hnd hmem hnp hpend hdel
    obtain ⟨k, ch', bs', bu'⟩ := e
    simp only [List.map_cons, List.nodup_cons] at hnd
    rcases List.mem_cons.1 hmem with heq | hmem'
    · injection heq with hk hrest
      injection hrest with hch hrest2
      injection hrest2 with hbs hbu
      subst hk; subst hch; subst hbs; subst hbu
      have h1 : ¬ (dictLookup L primary).isSome := by rw [hnp]; simp
      rw [processBackups_cons_emit _ _ _ _ _ _ _ _ _ _ p h1 hpend hdel]
      exact List.mem_cons.2 (Or.inl rfl)
    · have hkL : k ≠ L := by
        intro hk
        subst hk
        exact hnd.1 (List.mem_map.2 ⟨(k, ch, bs, bu), hmem', rfl⟩)
      by_cases hskip : (dictLookup k primary).isSome
      · rw [processBackups_cons_skip _ _ _ _ _ _ _ _ _ _ hskip]
        exact ih st L ch bs bu p hnd.2 hmem' hnp hpend hdel
      · cases hpend2 : st.get_pending_backup title k with
        | some p2 =>
          by_cases hdel2 : delay ≤ Int.fdiv (now - p2.first_seen) 86400
          · rw [processBackups_cons_emit _ _ _ _ _ _ _ _ _ _ p2 hskip hpend2
              hdel2]
            exact List.mem_cons.2
              (Or.inr (ih st L ch bs bu p hnd.2 hmem' hnp hpend hdel))
          · rw [processBackups_cons_wait _ _ _ _ _ _ _ _ _ _ p2 hskip hpend2
              hdel2]
            exact ih st L ch bs bu p hnd.2 hmem' hnp hpend hdel
        | none =>
          rw [processBackups_cons_new _ _ _ _ _ _ _ _ _ _ hskip hpend2]
          refine ih _ L ch bs bu p hnd.2 hmem' hnp ?_ hdel
          rw [set_pending_preserve now st title title k L bs' ch'.url
            (Or.inr fun hh => hkL hh.symm)]
          exact hpend

theorem processBackups_no_emit (title : String) (delay now : Int)
    (primary : List (String × Chapter)) :
    ∀ (blist : List (String × Chapter × String × String)) (st : State)
      (L : String) (p : PendingEntry),
      (blist.map Prod.fst).Nodup →
      (∀ e ∈ blist, (e.2.1).number = e.1) →
      st.get_pending_backup title L = some p →
      ¬ delay ≤ Int.fdiv (now - p.first_seen) 86400 →
      ∀ d ∈ (processBackups title delay now primary blist st).1,
        d.number ≠ L := by
  intro blist
  induction blist with
  | nil => intro st L p _ _ _ _ d hd; simp [processBackups] at hd
  | cons e rest ih =>
    intro st L p hnd hval hpend hdel d hd
    obtain ⟨k, ch', bs', bu'⟩ := e
    simp only [List.map_cons, List.nodup_cons] at hnd
    have hvrest : ∀ e ∈ rest, (e.2.1).number = e.1 := fun e he =>
      hval e (List.mem_cons.2 (Or.inr he))
    have hvhead : ch'.number = k := hval (k, ch', bs', bu')
      (List.mem_cons.2 (Or.inl rfl))
    by_cases hkL : k = L
    · subst hkL
      by_cases hskip : (dictLookup k primary).isSome
      · rw [processBackups_cons_skip _ _ _ _ _ _ _ _ _ _ hskip] at hd
        intro hdL
        have : d.number ∈ rest.map Prod.fst :=
          (processBackups_numbers_sublist _ _ _ _ rest st hvrest).subset
            (List.mem_map.2 ⟨d, hd, rfl⟩)
        rw [hdL] at this
        exact hnd.1 this
      · rw [processBackups_cons_wait _ _ _ _ _ _ _ _ _ _ p hskip hpend hdel]
          at hd
        intro hdL
        have : d.number ∈ rest.map Prod.fst :=
          (processBackups_numbers_sublist _ _ _ _ rest st hvrest).subset
            (List.mem_map.2 ⟨d, hd, rfl⟩)
        rw [hdL] at this
        exact hnd.1 this
    · by_cases hskip : (dictLookup k primary).isSome
      · rw [processBackups_cons_skip _ _ _ _ _ _ _ _ _ _ hskip] at hd
        exact ih st L p hnd.2 hvrest hpend hdel d hd
      · cases hpend2 : st.get_pending_backup title k with
        | some p2 =>
          by_cases hdel2 : delay ≤ Int.fdiv (now - p2.first_seen) 86400
          · rw [processBackups_cons_emit _ _ _ _ _ _ _ _ _ _ p2 hskip hpend2
              hdel2] at hd
            rcases List.mem_cons.1 hd with rfl | hd'
            · intro hdL
              exact hkL (hvhead.symm.trans hdL)
            · exact ih st L p hnd.2 hvrest hpend hdel d hd'
          · rw [processBackups_cons_wait _ _ _ _ _ _ _ _ _ _ p2 hskip hpend2
              hdel2] at hd
            exact ih st L p hnd.2 hvrest hpend hdel d hd
        | none =>
          rw [processBackups_cons_new _ _ _ _ _ _ _ _ _ _ hskip hpend2] at hd
          refine ih _ L p hnd.2 hvrest ?_ hdel d hd
          rw [set_pending_preserve now st title title k L bs' ch'.url
            (Or.inr fun hh => hkL hh.symm)]
          exact hpend

/-! ### Structure of `check_for_updates` -/

theorem check_ok (manga : Manga) (fetch : Listing) (now : Int) (st : State)
    (s0 : SourceCfg) (srest : List SourceCfg) (lnum : ℚ)
    (hs : getSourcesFromManga manga = s0 :: srest)
    (hln : lastNumOf st manga.title = .ok lnum) :
    check_for_updates manga fetch now st =
      .ok
        (pySort cwsLt
          ((processPrimary manga.title s0.source s0.url
              (scanPrimary fetch st manga.title lnum s0) st).1 ++
            (processBackups manga.title (manga.fallback_delay_days.getD 2) now
              (scanPrimary fetch st manga.title lnum s0)
              (scanBackups fetch st manga.title lnum
                (scanPrimary fetch st manga.title lnum s0) srest [])
              ((processPrimary manga.title s0.source s0.url
                (scanPrimary fetch st manga.title lnum s0) st).2)).1),
          (processBackups manga.title (manga.fallback_delay_days.getD 2) now
            (scanPrimary fetch st manga.title lnum s0)
            (scanBackups fetch st manga.title lnum
              (scanPrimary fetch st manga.title lnum s0) srest [])
            ((processPrimary manga.title s0.source s0.url
              (scanPrimary fetch st manga.title lnum s0) st).2)).2) := by
  simp only [check_for_updates]
  split
  · rename_i heq
    rw [hs] at heq
    cases heq
  · rename_i s0' srest' heq
    rw [hs] at heq
    cases heq
    split
    · rename_i e heq2
      rw [hln] at heq2
      cases heq2
    · rename_i lnum' heq2
      rw [hln] at heq2
      cases heq2
      rfl

theorem checkDecisions_eq (manga : Manga) (fetch : Listing) (now : Int)
    (st : State) (s0 : SourceCfg) (srest : List SourceCfg) (lnum : ℚ)
    (hs : getSourcesFromManga manga = s0 :: srest)
    (hln : lastNumOf st manga.title = .ok lnum) :
    checkDecisions manga fetch now st =
      pySort cwsLt
        ((processPrimary manga.title s0.source s0.url
            (scanPrimary fetch st manga.title lnum s0) st).1 ++
          (processBackups manga.title (manga.fallback_delay_days.getD 2) now
            (scanPrimary fetch st manga.title lnum s0)
            (scanBackups fetch st manga.title lnum
              (scanPrimary fetch st manga.title lnum s0) srest [])
            ((processPrimary manga.title s0.source s0.url
              (scanPrimary fetch st manga.title lnum s0) st).2)).1) := by
  unfold checkDecisions
  rw [check_ok manga fetch now st s0 srest lnum hs hln]

theorem checkState_eq (manga : Manga) (fetch : Listing) (now : Int)
    (st : State) (s0 : SourceCfg) (srest : List SourceCfg) (lnum : ℚ)
    (hs : getSourcesFromManga manga = s0 :: srest)
    (hln : lastNumOf st manga.title = .ok lnum) :
    checkState manga fetch now st =
      (processBackups manga.title (manga.fallback_delay_days.getD 2) now
        (scanPrimary fetch st manga.title lnum s0)
        (scanBackups fetch st manga.title lnum
          (scanPrimary fetch st manga.title lnum s0) srest [])
        ((processPrimary manga.title s0.source s0.url
          (scanPrimary fetch st manga.title lnum s0) st).2)).2 := by
  unfold checkState
  rw [check_ok manga fetch now st s0 srest lnum hs hln]

theorem dictLookup_isSome_of_mem_keys (k : String) :
    ∀ d : List (String × α), k ∈ d.map Prod.fst →
      (dictLookup k d).isSome := by
  intro d
  induction d with
  | nil => intro h; simp at h
  | cons p d ih =>
    obtain ⟨k2, v2⟩ := p
    intro h
    simp only [List.map_cons, List.mem_cons] at h
    simp only [dictLookup]
    by_cases h2 : k2 = k
    · rw [if_pos h2]; rfl
    · rw [if_neg h2]
      rcases h with h' | h'
      · exact absurd h'.symm h2
      · exact ih h'

/-- `(now - first_seen).days >= fallback_delay_days` is exactly
`now - first_seen >= fallback_delay_days` days, boundary inclusive. -/
theorem le_fdiv_86400_iff (delay x : Int) :
    delay ≤ Int.fdiv x 86400 ↔ delay * 86400 ≤ x := by
  rw [Int.fdiv_eq_ediv _ (by norm_num)]
  exact Int.le_ediv_iff_mul_le (by norm_num)

/-- On float-parsable labels, `Chapter.__lt__` is exactly the ordinal-key
comparison. -/
theorem cwsLt_iff_of_parse (x y : ChapterWithSource)
    (hx : (pyFloatParse x.number).isSome)
    (hy : (pyFloatParse y.number).isSome) :
    (cwsLt x y = true ↔ labelOrdinal x.number < labelOrdinal y.number) := by
  rcases Option.isSome_iff_exists.1 hx with ⟨px, hpx⟩
  rcases Option.isSome_iff_exists.1 hy with ⟨py, hpy⟩
  unfold cwsLt chapterLtLabels labelOrdinal
  rw [hpx, hpy]
  simp

theorem check_ok_shape (manga : Manga) (fetch : Listing) (now : Int)
    (st : State) (ds : List ChapterWithSource) (st2 : State)
    (h : check_for_updates manga fetch now st = .ok (ds, st2)) :
    ∃ pre, ds = pySort cwsLt pre := by
  simp only [check_for_updates] at h
  revert h
  split
  · intro h; cases h
  · split
    · intro h; cases h
    · intro h
      injection h with h2
      exact ⟨_, (congrArg Prod.fst h2).symm⟩

theorem check_empty_sources (manga : Manga) (fetch : Listing) (now : Int)
    (st : State) (h : getSourcesFromManga manga = []) :
    check_for_updates manga fetch now st =
      .error (.downloaderError
        ("No sources configured for '" ++ manga.title ++ "'")) := by
  simp only [check_for_updates]
  split
  · rfl
  · rename_i s0 srest heq
    rw [h] at heq
    cases heq

theorem check_lastNum_error (manga : Manga) (fetch : Listing) (now : Int)
    (st : State) (s0 : SourceCfg) (srest : List SourceCfg) (e : CheckError)
    (hs : getSourcesFromManga manga = s0 :: srest)
    (hln : lastNumOf st manga.title = .error e) :
    check_for_updates manga fetch now st = .error e := by
  simp only [check_for_updates]
  split
  · rename_i heq
    rw [hs] at heq
    cases heq
  · rename_i s0' srest' heq
    rw [hs] at heq
    cases heq
    split
    · rename_i e' heq2
      rw [hln] at heq2
      cases heq2
      rfl
    · rename_i lnum heq2
      rw [hln] at heq2
      cases heq2

theorem checkDecisions_cases (manga : Manga) (fetch : Listing) (now : Int)
    (st : State) :
    checkDecisions manga fetch now st = [] ∨
      ∃ s0 srest lnum, getSourcesFromManga manga = s0 :: srest ∧
        lastNumOf st manga.title = .ok lnum ∧
        checkDecisions manga fetch now st =
          pySort cwsLt
            ((processPrimary manga.title s0.source s0.url
                (scanPrimary fetch st manga.title lnum s0) st).1 ++
              (processBackups manga.title (manga.fallback_delay_days.getD 2)
                now (scanPrimary fetch st manga.title lnum s0)
                (scanBackups fetch st manga.title lnum
                  (scanPrimary fetch st manga.title lnum s0) srest [])
                ((processPrimary manga.title s0.source s0.url
                  (scanPrimary fetch st manga.title lnum s0) st).2)).1) := by
  cases hsrc : getSourcesFromManga manga with
  | nil =>
    left
    unfold checkDecisions
    rw [check_empty_sources manga fetch now st hsrc]
  | cons s0 srest =>
    cases hln : lastNumOf st manga.title with
    | error e =>
      left
      unfold checkDecisions
      rw [check_lastNum_error manga fetch now st s0 srest e hsrc hln]
    | ok lnum =>
      right
      exact ⟨s0, srest, lnum, rfl, rfl, by
        unfold checkDecisions
        rw [check_ok manga fetch now st s0 srest lnum hsrc hln]⟩

theorem checkState_cases (manga : Manga) (fetch : Listing) (now : Int)
    (st : State) :
    checkState manga fetch now st = st ∨
      ∃ s0 srest lnum, getSourcesFromManga manga = s0 :: srest ∧
        lastNumOf st manga.title = .ok lnum ∧
        checkState manga fetch now st =
          (processBackups manga.title (manga.fallback_delay_days.getD 2) now
            (scanPrimary fetch st manga.title lnum s0)
            (scanBackups fetch st manga.title lnum
              (scanPrimary fetch st manga.title lnum s0) srest [])
            ((processPrimary manga.title s0.source s0.url
              (scanPrimary fetch st manga.title lnum s0) st).2)).2 := by
  cases hsrc : getSourcesFromManga manga with
  | nil =>
    left
    unfold checkState
    rw [check_empty_sources manga fetch now st hsrc]
  | cons s0 srest =>
    cases hln : lastNumOf st manga.title with
    | error e =>
      left
      unfold checkState
      rw [check_lastNum_error manga fetch now st s0 srest e hsrc hln]
    | ok lnum =>
      right
      exact ⟨s0, srest, lnum, rfl, rfl, by
        unfold checkState
        rw [check_ok manga fetch now st s0 srest lnum hsrc hln]⟩

/-- No decision of a reconcile run carries a label already recorded as
downloaded: the per-source filter checks `store.IsDownloaded` explicitly. -/
theorem checkDecisions_not_downloaded (manga : Manga) (fetch : Listing)
    (now : Int) (st : State) (d : ChapterWithSource)
    (hd : d ∈ checkDecisions manga fetch now st) :
    st.is_chapter_downloaded manga.title d.number = false := by
  rcases checkDecisions_cases manga fetch now st with hnil |
    ⟨s0, srest, lnum, hs, hln, heq⟩
  · rw [hnil] at hd
    simp at hd
  · rw [heq, mem_pySort] at hd
    rcases List.mem_append.1 hd with hp | hb
    · rw [processPrimary_decisions] at hp
      rcases List.mem_map.1 hp with ⟨e, he, hde⟩
      rcases scanPrimary_mem fetch st manga.title lnum s0 e he with
        ⟨hn, hdl, _⟩
      rw [← hde]
      exact hdl
    · rcases processBackups_decisions_mem _ _ _ _ _ _ _ hb with
        ⟨k, ch, bs, bu, hmem, hde, hnp⟩
      have hprop := scanBackups_mem fetch st manga.title lnum _ srest []
        (by simp) _ hmem
      rw [hde]
      exact hprop.2.1

/-- The decision labels of one reconcile run are pairwise distinct. -/
theorem checkDecisions_numbers_nodup (manga : Manga) (fetch : Listing)
    (now : Int) (st : State) :
    ((checkDecisions manga fetch now st).map ChapterWithSource.number).Nodup := by
  rcases checkDecisions_cases manga fetch now st with hnil |
    ⟨s0, srest, lnum, hs, hln, heq⟩
  · rw [hnil]; simp
  · rw [heq]
    have hperm := pySort_perm cwsLt
      ((processPrimary manga.title s0.source s0.url
          (scanPrimary fetch st manga.title lnum s0) st).1 ++
        (processBackups manga.title (manga.fallback_delay_days.getD 2) now
          (scanPrimary fetch st manga.title lnum s0)
          (scanBackups fetch st manga.title lnum
            (scanPrimary fetch st manga.title lnum s0) srest [])
          ((processPrimary manga.title s0.source s0.url
            (scanPrimary fetch st manga.title lnum s0) st).2)).1)
    refine ((hperm.map ChapterWithSource.number).nodup_iff).2 ?_
    rw [List.map_append]
    have hbval : ∀ e ∈ scanBackups fetch st manga.title lnum
        (scanPrimary fetch st manga.title lnum s0) srest [],
        (e.2.1).number = e.1 := fun e he =>
      (scanBackups_mem fetch st manga.title lnum _ srest [] (by simp) e he).1
    refine List.Nodup.append ?_ ?_ ?_
    · rw [processPrimary_decisions, List.map_map]
      have hcg : (scanPrimary fetch st manga.title lnum s0).map
          (ChapterWithSource.number ∘
            fun e => mkChapterWithSource e.2 s0.source s0.url false) =
          (scanPrimary fetch st manga.title lnum s0).map Prod.fst := by
        refine List.map_congr_left ?_
        intro e he
        exact (scanPrimary_mem fetch st manga.title lnum s0 e he).1
      rw [hcg]
      exact scanPrimary_keys_nodup fetch st manga.title lnum s0
    · exact (processBackups_numbers_sublist _ _ _ _ _ _ hbval).nodup
        (scanBackups_keys_nodup fetch st manga.title lnum _ srest [] (by simp))
    · intro a ha hb
      rw [processPrimary_decisions, List.map_map] at ha
      have hcg : (scanPrimary fetch st manga.title lnum s0).map
          (ChapterWithSource.number ∘
            fun e => mkChapterWithSource e.2 s0.source s0.url false) =
          (scanPrimary fetch st manga.title lnum s0).map Prod.fst := by
        refine List.map_congr_left ?_
        intro e he
        exact (scanPrimary_mem fetch st manga.title lnum s0 e he).1
      rw [hcg] at ha
      have hbk := (processBackups_numbers_sublist _ _ _ _ _ _ hbval).subset hb
      rcases List.mem_map.1 hbk with ⟨e, he, hfst⟩
      have hnp := (scanBackups_mem fetch st manga.title lnum _ srest []
        (by simp) e he).2.2.2
      rw [hfst] at hnp
      have := dictLookup_isSome_of_mem_keys a _ ha
      rw [hnp] at this
      simp at this

/-- A reconcile run never changes the downloaded list. -/
theorem checkState_downloaded (manga : Manga) (fetch : Listing) (now : Int)
    (st : State) (t' : String) :
    (checkState manga fetch now st).get_downloaded_chapters t' =
      st.get_downloaded_chapters t' := by
  rcases checkState_cases manga fetch now st with hid |
    ⟨s0, srest, lnum, hs, hln, heq⟩
  · rw [hid]
  · rw [heq, processBackups_downloaded, processPrimary_downloaded]

theorem checkState_pendingWF (manga : Manga) (fetch : Listing) (now : Int)
    (st : State) (t' : String) (h : PendingWF st t') :
    PendingWF (checkState manga fetch now st) t' := by
  rcases checkState_cases manga fetch now st with hid |
    ⟨s0, srest, lnum, hs, hln, heq⟩
  · rw [hid]; exact h
  · rw [heq]
    exact processBackups_pendingWF _ _ _ _ _ _ _
      (processPrimary_pendingWF _ _ _ _ _ _ h)

/-- A reconcile run preserves "no pending entry" for a downloaded label:
it only creates pending entries for labels that passed the
not-downloaded filter. -/
theorem checkState_pending_none_of_downloaded (manga : Manga)
    (fetch : Listing) (now : Int) (st : State) (t l : String)
    (hdl : st.is_chapter_downloaded t l = true)
    (hp : st.get_pending_backup t l = none) :
    (checkState manga fetch now st).get_pending_backup t l = none := by
  rcases checkState_cases manga fetch now st with hid |
    ⟨s0, srest, lnum, hs, hln, heq⟩
  · rw [hid]; exact hp
  · rw [heq]
    have h1 : ((processPrimary manga.title s0.source s0.url
        (scanPrimary fetch st manga.title lnum s0) st).2).get_pending_backup
          t l = none := by
      by_cases ht : t = manga.title
      · subst ht
        exact processPrimary_pending_none _ _ _ _ _ _ hp
      · rw [processPrimary_pending_preserve _ _ _ _ _ _ _ (Or.inl ht)]
        exact hp
    by_cases hbk : t = manga.title ∧ l ∈ (scanBackups fetch st manga.title lnum
        (scanPrimary fetch st manga.title lnum s0) srest []).map Prod.fst
    · obtain ⟨ht, hl⟩ := hbk
      subst ht
      rcases List.mem_map.1 hl with ⟨e, he, hfst⟩
      have hprop := scanBackups_mem fetch st manga.title lnum _ srest []
        (by simp) e he
      rw [hprop.1, hfst] at hprop
      rw [hdl] at hprop
      exact absurd hprop.2.1 (by simp)
    · rw [processBackups_pending_preserve _ _ _ _ _ _ _ _
        ((not_and_or.1 hbk).imp id id)]
      exact h1

/-! ### Commit-step lemmas -/

theorem is_downloaded_clear (s : State) (t t' ch l : String) :
    (s.clear_pending_backup t ch).is_chapter_downloaded t' l =
      s.is_chapter_downloaded t' l := by
  unfold State.is_chapter_downloaded
  rw [clear_downloaded]

theorem commit_state_mono (now : Int) (s : State) (T ch t' l : String)
    (h : s.is_chapter_downloaded t' l = true) :
    (commitFetchCLI now s T ch).state.is_chapter_downloaded t' l = true := by
  have hadd := add_state_mono now s T t' ch l h
  unfold commitFetchCLI
  cases hres : s.add_downloaded_chapter now T ch with
  | ok st1 =>
    rw [hres, state_ok] at hadd
    simp only []
    rw [state_ok, is_downloaded_clear]
    exact hadd
  | raised st1 =>
    rw [hres, state_raised] at hadd
    simp only []
    rw [state_raised]
    exact hadd

theorem commit_state_self (now : Int) (s : State) (T ch : String) :
    (commitFetchCLI now s T ch).state.is_chapter_downloaded T ch = true := by
  have hadd := add_state_mem_self now s T ch
  unfold commitFetchCLI
  cases hres : s.add_downloaded_chapter now T ch with
  | ok st1 =>
    rw [hres, state_ok] at hadd
    simp only []
    rw [state_ok, is_downloaded_clear]
    exact hadd
  | raised st1 =>
    rw [hres, state_raised] at hadd
    simp only []
    rw [state_raised]
    exact hadd

theorem commitListCLI_cons_ok (now : Int) (T : String) (s : State)
    (c : String) (sel : List String) (st1 : State)
    (hres : commitFetchCLI now s T c = .ok st1) :
    commitListCLI now T s (c :: sel) = commitListCLI now T st1 sel := by
  simp only [commitListCLI]
  rw [hres]

theorem commitListCLI_cons_raised (now : Int) (T : String) (s : State)
    (c : String) (sel : List String) (st1 : State)
    (hres : commitFetchCLI now s T c = .raised st1) :
    commitListCLI now T s (c :: sel) = st1 := by
  simp only [commitListCLI]
  rw [hres]

theorem commitsRun_cons_ok (now : Int) (T : String) (s : State)
    (c : String) (sel : List String) (st1 : State)
    (hres : commitFetchCLI now s T c = .ok st1) :
    commitsRun now T s (c :: sel) = c :: commitsRun now T st1 sel := by
  simp only [commitsRun]
  rw [hres]

theorem commitsRun_cons_raised (now : Int) (T : String) (s : State)
    (c : String) (sel : List String) (st1 : State)
    (hres : commitFetchCLI now s T c = .raised st1) :
    commitsRun now T s (c :: sel) = [c] := by
  simp only [commitsRun]
  rw [hres]

theorem commitList_downloaded_mono (now : Int) (T : String) :
    ∀ (sel : List String) (s : State) (t' l : String),
      s.is_chapter_downloaded t' l = true →
      (commitListCLI now T s sel).is_chapter_downloaded t' l = true := by
  intro sel
  induction sel with
  | nil => intro s t' l h; exact h
  | cons c sel ih =>
    intro s t' l h
    have hstep := commit_state_mono now s T c t' l h
    cases hres : commitFetchCLI now s T c with
    | ok st1 =>
      rw [hres, state_ok] at hstep
      rw [commitListCLI_cons_ok now T s c sel st1 hres]
      exact ih st1 t' l hstep
    | raised st1 =>
      rw [hres, state_raised] at hstep
      rw [commitListCLI_cons_raised now T s c sel st1 hres]
      exact hstep

/-- The labels whose commit ran form a prefix of the chosen selection. -/
theorem commitsRun_sublist (now : Int) (T : String) :
    ∀ (sel : List String) (s : State),
      (commitsRun now T s sel).Sublist sel := by
  intro sel
  induction sel with
  | nil =>
    intro s
    simp [commitsRun]
  | cons c sel ih =>
    intro s
    cases hres : commitFetchCLI now s T c with
    | ok st1 =>
      rw [commitsRun_cons_ok now T s c sel st1 hres]
      exact List.Sublist.cons₂ c (ih st1)
    | raised st1 =>
      rw [commitsRun_cons_raised now T s c sel st1 hres]
      exact List.Sublist.cons₂ c (List.nil_sublist sel)

/-- Every label whose commit ran — including one whose sort raised — is in
`downloaded` when the loop ends. -/
theorem commitsRun_downloaded (now : Int) (T : String) :
    ∀ (sel : List String) (s : State) (l : String),
      l ∈ commitsRun now T s sel →
      (commitListCLI now T s sel).is_chapter_downloaded T l = true := by
  intro sel
  induction sel with
  | nil =>
    intro s l h
    simp [commitsRun] at h
  | cons c sel ih =>
    intro s l h
    cases hres : commitFetchCLI now s T c with
    | ok st1 =>
      rw [commitsRun_cons_ok now T s c sel st1 hres] at h
      rw [commitListCLI_cons_ok now T s c sel st1 hres]
      rcases List.mem_cons.1 h with rfl | h'
      · have hself := commit_state_self now s T l
        rw [hres, state_ok] at hself
        exact commitList_downloaded_mono now T sel st1 T l hself
      · exact ih st1 l h'
    | raised st1 =>
      rw [commitsRun_cons_raised now T s c sel st1 hres] at h
      rw [commitListCLI_cons_raised now T s c sel st1 hres]
      have hlc : l = c := by simpa using h
      subst hlc
      have hself := commit_state_self now s T l
      rw [hres, state_raised] at hself
      exact hself

/-- The state invariant the engine and CLI maintain as long as every commit
returns normally: a downloaded label has no pending entry, and pending
dicts are well-formed. -/
theorem reachable_inv (st : State) (h : ReachableCLI false st) :
    (∀ t l, st.is_chapter_downloaded t l = true →
      st.get_pending_backup t l = none) ∧ (∀ t, PendingWF st t) := by
  induction h with
  | init =>
    constructor
    · intro t l h
      rw [show (({} : State).is_chapter_downloaded t l) = false from rfl] at h
      cases h
    · intro t
      exact List.nodup_nil
  | step_check manga fetch now st ds st' h hok ih =>
    have hst : checkState manga fetch now st = st' := by
      unfold checkState
      rw [hok]
    constructor
    · intro t l hdl
      have hdl0 : st.is_chapter_downloaded t l = true := by
        unfold State.is_chapter_downloaded at hdl ⊢
        rw [← hst, checkState_downloaded] at hdl
        exact hdl
      rw [← hst]
      exact checkState_pending_none_of_downloaded manga fetch now st t l hdl0
        (ih.1 t l hdl0)
    · intro t
      rw [← hst]
      exact checkState_pendingWF manga fetch now st t (ih.2 t)
  | step_commit_ok now title ch st st' h hok ih =>
    unfold commitFetchCLI at hok
    cases hadd : State.add_downloaded_chapter now st title ch with
    | raised s1 =>
      rw [hadd] at hok
      cases hok
    | ok s1 =>
      rw [hadd] at hok
      simp only [] at hok
      injection hok with hok2
      have hs1 : s1 = (State.add_downloaded_chapter now st title ch).state :=
        by rw [hadd, state_ok]
      rw [← hok2, hs1]
      constructor
      · intro t l hdl
        rw [is_downloaded_clear] at hdl
        rcases add_state_mem_elim now st title ch t l hdl with ⟨ht, hl⟩ | hdl0
        · subst ht; subst hl
          exact clear_pending_self _ _ _ (pendingWF_add now st t t l (ih.2 t))
        · refine clear_pending_none _ _ _ _ _ ?_
          rw [add_state_pending]
          exact ih.1 t l hdl0
      · intro t
        exact pendingWF_clear _ _ _ _
          (pendingWF_add now st title t ch (ih.2 t))
  | step_commit_raised now title ch st st' he h hr ih =>
    exact absurd he (by simp)

/-! ### The at-most-once trace argument -/

theorem traceWF_commits_aux (T : String) :
    ∀ (rs : List Round) (st : State) (prior : List String),
      traceWF T rs st →
      (∀ l ∈ prior, st.is_chapter_downloaded T l = true) →
      prior.Nodup →
      (prior ++ traceCommits rs st).Nodup := by
  intro rs
  induction rs with
  | nil =>
    intro st prior _ _ hnd
    simpa [traceCommits] using hnd
  | cons r rs ih =>
    intro st prior hwf hprior hnd
    simp only [traceWF] at hwf
    obtain ⟨hT, hselnd, hsel, hwfrest⟩ := hwf
    have hcommits : traceCommits (r :: rs) st =
        commitsRun r.now r.manga.title (roundCheck r st).2 r.commitSel ++
          traceCommits rs (roundExec r st) := rfl
    rw [hcommits, ← List.append_assoc]
    have hsel' : ∀ l ∈ r.commitSel,
        l ∈ (checkDecisions r.manga r.fetch r.now st).map
          ChapterWithSource.number := hsel
    have hrun := commitsRun_sublist r.now r.manga.title r.commitSel
      (roundCheck r st).2
    have hexec : roundExec r st = commitListCLI r.now r.manga.title
        (roundCheck r st).2 r.commitSel := rfl
    refine ih (roundExec r st)
      (prior ++ commitsRun r.now r.manga.title (roundCheck r st).2
        r.commitSel) hwfrest ?_ ?_
    · intro l hl
      rw [hexec]
      rcases List.mem_append.1 hl with hp | hs2
      · refine commitList_downloaded_mono r.now r.manga.title r.commitSel _
          T l ?_
        unfold State.is_chapter_downloaded
        have hck : (roundCheck r st).2 = checkState r.manga r.fetch r.now st :=
          rfl
        rw [hck, checkState_downloaded]
        exact hprior l hp
      · rw [← hT]
        exact commitsRun_downloaded r.now r.manga.title r.commitSel _ l hs2
    · refine List.Nodup.append hnd (List.Nodup.sublist hrun hselnd) ?_
      intro a hap has
      have hd := hprior a hap
      have has' : a ∈ r.commitSel := hrun.subset has
      rcases List.mem_map.1 (hsel' a has') with ⟨d, hdmem, hdn⟩
      have hnd2 := checkDecisions_not_downloaded r.manga r.fetch r.now st d
        hdmem
      rw [hdn, hT] at hnd2
      rw [hd] at hnd2
      cases hnd2

/-! ## Claim theorems -/

/-- Claim C2, counterexample: `RecordDownloaded` does not update
`last_confirmed` to `max(last_confirmed, OrdinalKey(label))` and the stored
value is not monotone: committing "5" and then "3" (both calls return
normally) leaves the stored last chapter at "3", whose ordinal key 3 is
smaller than 5. -/
theorem c2_counterexample :
    ((State.add_downloaded_chapter 0 {} "T" "5").isOk = true) ∧
    ((State.add_downloaded_chapter 0 {} "T" "5").state.get_last_chapter "T" =
      some "5") ∧
    ((State.add_downloaded_chapter 1
        (State.add_downloaded_chapter 0 {} "T" "5").state "T" "3").isOk =
      true) ∧
    ((State.add_downloaded_chapter 1
        (State.add_downloaded_chapter 0 {} "T" "5").state "T"
        "3").state.get_last_chapter "T" = some "3") ∧
    labelOrdinal "3" < labelOrdinal "5" := by
  refine ⟨by decide, by decide, by decide, by decide, by decide⟩

/-- Claim C2 (amended): a `RecordDownloaded(seriesTitle, label)` call that
returns normally sets the stored last-confirmed chapter to `label` verbatim
— not to the maximum — so the stored threshold afterwards is
`OrdinalKey(label)` and can decrease when a lower-ordinal label is
committed after a higher one; and when the sort key raises `ValueError`
(a new multi-dot all-digits label), the call aborts after appending the
label to `downloaded` and before the `last_chapter` assignment, which then
keeps its previous value. -/
theorem c2_last_chapter_set_verbatim :
    (∀ (now : Int) (s : State) (t ch : String) (s' : State),
        s.add_downloaded_chapter now t ch = .ok s' →
        s'.get_last_chapter t = some ch) ∧
    (∀ (now : Int) (s : State) (t ch : String) (s' : State),
        s.add_downloaded_chapter now t ch = .raised s' →
        s'.get_last_chapter t = s.get_last_chapter t ∧
          s'.is_chapter_downloaded t ch = true) :=
  ⟨fun now s t ch s' h => add_ok_last_chapter now s t ch s' h,
   fun now s t ch s' h => add_raised_state now s t ch s' h⟩

/-- Witness for C2 at concrete stores: committing "3" on a fresh store
returns normally and stores "3"; committing "1.2.3" raises, leaves
`last_chapter` unset, and records the label in `downloaded`. -/
theorem c2_last_chapter_set_verbatim_witness :
    ((State.add_downloaded_chapter 0 {} "T" "3").state.get_last_chapter "T" =
      some "3") ∧
    ((State.add_downloaded_chapter 0 {} "T" "1.2.3").state.get_last_chapter
      "T" = ({} : State).get_last_chapter "T") ∧
    ((State.add_downloaded_chapter 0 {} "T"
        "1.2.3").state.is_chapter_downloaded "T" "1.2.3" = true) :=
  ⟨c2_last_chapter_set_verbatim.1 0 {} "T" "3"
      ((State.add_downloaded_chapter 0 {} "T" "3").state) (by decide),
   (c2_last_chapter_set_verbatim.2 0 {} "T" "1.2.3"
      ((State.add_downloaded_chapter 0 {} "T" "1.2.3").state) (by decide)).1,
   (c2_last_chapter_set_verbatim.2 0 {} "T" "1.2.3"
      ((State.add_downloaded_chapter 0 {} "T" "1.2.3").state) (by decide)).2⟩

/-- Claim C7: a second `SetPendingIfAbsent` call for the same label changes
nothing in the store — whatever the new timestamp or backup identity — and
the entry keeps the `first_seen` (and identity) recorded by the first call. -/
theorem c7_idempotent_pending_start (now1 now2 : Int) (s : State)
    (t L b1 u1 b2 u2 : String) :
    ((s.set_pending_backup now1 t L b1 u1).set_pending_backup now2 t L b2 u2 =
      s.set_pending_backup now1 t L b1 u1) ∧
    (s.get_pending_backup t L = none →
      (s.set_pending_backup now1 t L b1 u1).get_pending_backup t L =
        some ⟨now1, b1, u1⟩) := by
  constructor
  · refine set_pending_of_isSome now2 _ t L b2 u2 ?_
    rw [set_pending_lookup_self]
    rfl
  · intro h
    rw [set_pending_lookup_self, h]
    rfl

/-- Witness for C7 at a concrete store. -/
theorem c7_idempotent_pending_start_witness :
    ((State.set_pending_backup 3 {} "T" "7" "b1" "u1").set_pending_backup 9
        "T" "7" "b2" "u2" =
      State.set_pending_backup 3 {} "T" "7" "b1" "u1") ∧
    (State.set_pending_backup 3 {} "T" "7" "b1" "u1").get_pending_backup "T"
      "7" = some ⟨3, "b1", "u1"⟩ :=
  ⟨(c7_idempotent_pending_start 3 9 {} "T" "7" "b1" "u1" "b2" "u2").1,
    (c7_idempotent_pending_start 3 9 {} "T" "7" "b1" "u1" "b2" "u2").2
      (by decide)⟩

/-- Claim C9: a series whose configured source list is empty makes
`check_for_updates` raise `DownloaderError` instead of returning an empty
decision list. -/
theorem c9_empty_sources_error (manga : Manga) (fetch : Listing) (now : Int)
    (st : State) (h : getSourcesFromManga manga = []) :
    check_for_updates manga fetch now st =
      .error (.downloaderError
        ("No sources configured for '" ++ manga.title ++ "'")) :=
  check_empty_sources manga fetch now st h

/-- Witness for C9: a manga with an empty `sources` array. -/
theorem c9_empty_sources_error_witness :
    check_for_updates { title := "X", sources := some [] }
        (fun _ _ => none) 0 {} =
      .error (.downloaderError "No sources configured for 'X'") :=
  c9_empty_sources_error { title := "X", sources := some [] }
    (fun _ _ => none) 0 {} rfl

/-- Claim C10: `RecordDownloaded` stores the raw label verbatim whenever it
returns normally, so after committing a label that does not parse as a
float (and is nonempty), the next `check_for_updates` call raises an
unhandled `ValueError` from `float(last_chapter)` (not a
`DownloaderError`), provided the series has at least one configured
source. -/
theorem c10_nonnumeric_last_chapter_value_error (manga : Manga)
    (fetch : Listing) (now now0 : Int) (st st1 : State) (s0 : SourceCfg)
    (srest : List SourceCfg) (lc : String)
    (hs : getSourcesFromManga manga = s0 :: srest)
    (hadd : st.add_downloaded_chapter now0 manga.title lc = .ok st1)
    (hlc : pyFloatParse lc = none) (hne : lc ≠ "") :
    check_for_updates manga fetch now st1 = .error .valueError := by
  have hlast : st1.get_last_chapter manga.title = some lc :=
    add_ok_last_chapter now0 st manga.title lc st1 hadd
  have hln : lastNumOf st1 manga.title = .error .valueError := by
    unfold lastNumOf
    split
    · rename_i heq
      rw [hlast] at heq
      cases heq
    · rename_i lc' heq
      rw [hlast] at heq
      cases heq
      rw [if_neg hne]
      split
      · rename_i q heq2
        rw [hlc] at heq2
        cases heq2
      · rfl
  exact check_lastNum_error manga fetch now _ s0 srest _ hs hln

/-- Witness for C10: commit `"Extra"` (the call returns normally), then
check. -/
theorem c10_nonnumeric_last_chapter_value_error_witness :
    check_for_updates
        { title := "T", sources := some [.dict (some "p") "u"] }
        (fun _ _ => some []) 5
        (State.add_downloaded_chapter 0 {} "T" "Extra").state =
      .error .valueError :=
  c10_nonnumeric_last_chapter_value_error
    { title := "T", sources := some [.dict (some "p") "u"] }
    (fun _ _ => some []) 5 0 {}
    ((State.add_downloaded_chapter 0 {} "T" "Extra").state)
    ⟨"p", "u"⟩ [] "Extra" rfl (by decide) (by decide) (by decide)

/-- Claim C4: a chapter that passed the new-chapter filter, is listed only
on a backup source (it is in the backup dict and not in the primary dict),
and already has a pending entry first seen at `T = pe.first_seen`, is
emitted as a fallback decision if and only if
`now - T ≥ fallback_delay_days` days (boundary inclusive, seconds model):
`(now - first_seen).days ≥ fallback_delay_days` is exactly
`fallback_delay_days * 86400 ≤ now - first_seen`. -/
theorem c4_fallback_delay_boundary (manga : Manga) (fetch : Listing)
    (now : Int) (st : State) (s0 : SourceCfg) (srest : List SourceCfg)
    (lnum : ℚ) (L : String) (ch : Chapter) (bs bu : String)
    (pe : PendingEntry)
    (hs : getSourcesFromManga manga = s0 :: srest)
    (hln : lastNumOf st manga.title = .ok lnum)
    (hb : dictLookup L (scanBackups fetch st manga.title lnum
      (scanPrimary fetch st manga.title lnum s0) srest []) =
      some (ch, bs, bu))
    (hpnone : dictLookup L (scanPrimary fetch st manga.title lnum s0) = none)
    (hpend : st.get_pending_backup manga.title L = some pe) :
    ((∃ d ∈ checkDecisions manga fetch now st,
        d.number = L ∧ d.is_backup = true) ↔
      (manga.fallback_delay_days.getD 2) * 86400 ≤ now - pe.first_seen) := by
  have hmemb := dictLookup_mem _ _ _ hb
  have hbWF := scanBackups_mem fetch st manga.title lnum
    (scanPrimary fetch st manga.title lnum s0) srest [] (by simp)
  have hbnd := scanBackups_keys_nodup fetch st manga.title lnum
    (scanPrimary fetch st manga.title lnum s0) srest [] (by simp)
  have hbval : ∀ e ∈ scanBackups fetch st manga.title lnum
      (scanPrimary fetch st manga.title lnum s0) srest [],
      (e.2.1).number = e.1 := fun e he => (hbWF e he).1
  have hchL : ch.number = L := (hbWF _ hmemb).1
  have hLnotp : L ∉ (scanPrimary fetch st manga.title lnum s0).map
      Prod.fst := by
    intro hmem
    have := dictLookup_isSome_of_mem_keys L _ hmem
    rw [hpnone] at this
    simp at this
  have hpend1 : ((processPrimary manga.title s0.source s0.url
      (scanPrimary fetch st manga.title lnum s0) st).2).get_pending_backup
        manga.title L = some pe := by
    rw [processPrimary_pending_preserve _ _ _ _ _ _ _ (Or.inr hLnotp)]
    exact hpend
  rw [checkDecisions_eq manga fetch now st s0 srest lnum hs hln]
  rw [← le_fdiv_86400_iff]
  constructor
  · rintro ⟨d, hd, hdn, hdb⟩
    by_contra hc
    rw [mem_pySort] at hd
    rcases List.mem_append.1 hd with hp | hbdec
    · rw [processPrimary_decisions] at hp
      rcases List.mem_map.1 hp with ⟨e, he, hde⟩
      rw [← hde] at hdb
      simp [mkChapterWithSource] at hdb
    · exact absurd hdn
        (processBackups_no_emit _ _ _ _ _ _ L pe hbnd hbval hpend1 hc d hbdec)
  · intro hdel
    refine ⟨mkChapterWithSource ch bs bu true, ?_, hchL, rfl⟩
    rw [mem_pySort]
    refine List.mem_append.2 (Or.inr ?_)
    exact processBackups_emits _ _ _ _ _ _ L ch bs bu pe hbnd hmemb hpnone
      hpend1 hdel

/-- Witness for C4, exercising both directions of the boundary: the same
pending chapter (first seen at time 0, delay 2 days) is not emitted at one
second before the 2-day boundary and is emitted exactly at it. -/
theorem c4_fallback_delay_boundary_witness :
    (¬ (∃ d ∈ checkDecisions
        { title := "T", sources := some [.dict (some "prim") "pu",
          .dict (some "back") "bu"] }
        (fun s _ => if s = "back" then some [{ number := "5", url := "u5" }]
          else some []) (2 * 86400 - 1)
        { manga := [("T",
          { pending_backup := [("5", ⟨0, "siteA", "oldu"⟩)] })] },
        d.number = "5" ∧ d.is_backup = true)) ∧
    (∃ d ∈ checkDecisions
        { title := "T", sources := some [.dict (some "prim") "pu",
          .dict (some "back") "bu"] }
        (fun s _ => if s = "back" then some [{ number := "5", url := "u5" }]
          else some []) (2 * 86400)
        { manga := [("T",
          { pending_backup := [("5", ⟨0, "siteA", "oldu"⟩)] })] },
        d.number = "5" ∧ d.is_backup = true) := by
  constructor
  · intro hex
    have hiff := c4_fallback_delay_boundary
      { title := "T", sources := some [.dict (some "prim") "pu",
        .dict (some "back") "bu"] }
      (fun s _ => if s = "back" then some [{ number := "5", url := "u5" }]
        else some []) (2 * 86400 - 1)
      { manga := [("T",
        { pending_backup := [("5", ⟨0, "siteA", "oldu"⟩)] })] }
      ⟨"prim", "pu"⟩ [⟨"back", "bu"⟩] (mkRat 0 1) "5"
      { number := "5", url := "u5" } "back" "bu" ⟨0, "siteA", "oldu"⟩
      (by decide) (by decide) (by decide) (by decide) (by decide)
    exact absurd (hiff.1 hex) (by decide)
  · refine (c4_fallback_delay_boundary
      { title := "T", sources := some [.dict (some "prim") "pu",
        .dict (some "back") "bu"] }
      (fun s _ => if s = "back" then some [{ number := "5", url := "u5" }]
        else some []) (2 * 86400)
      { manga := [("T",
        { pending_backup := [("5", ⟨0, "siteA", "oldu"⟩)] })] }
      ⟨"prim", "pu"⟩ [⟨"back", "bu"⟩] (mkRat 0 1) "5"
      { number := "5", url := "u5" } "back" "bu" ⟨0, "siteA", "oldu"⟩
      (by decide) (by decide) (by decide) (by decide) (by decide)).2
      (by decide)

/-- Claim C5, counterexample: the pending entry stores backup identity
`siteA`/`oldurl`, but when the delay has elapsed and the chapter is listed
by a different backup `siteB`, the emitted decision carries `siteB` and the
current run's locator — the stored original identity is not used. -/
theorem c5_counterexample :
    ((State.mk [("T", { pending_backup := [("5", ⟨0, "siteA", "oldurl"⟩)] })]
        ).get_pending_backup "T" "5" = some ⟨0, "siteA", "oldurl"⟩) ∧
    (checkDecisions
        { title := "T", sources := some [.dict (some "prim") "pu",
          .dict (some "siteB") "urlB"] }
        (fun s _ => if s = "siteB" then some [{ number := "5", url := "u5" }]
          else some []) (3 * 86400)
        (State.mk [("T",
          { pending_backup := [("5", ⟨0, "siteA", "oldurl"⟩)] })]) =
      [⟨"5", none, "u5", none, "siteB", "urlB", true⟩]) ∧
    ("siteB" : String) ≠ "siteA" := by
  refine ⟨by decide, by decide, by decide⟩

/-- Claim C5 (amended): when the fallback delay has elapsed for a pending
backup-only chapter, the emitted fallback decision carries the identifier
and series locator of the backup source that listed the chapter in the
current run (as recorded in the backup dict) — only `first_seen` is read
from the pending entry; the stored backup identity is not consulted. -/
theorem c5_current_run_backup_identity (manga : Manga) (fetch : Listing)
    (now : Int) (st : State) (s0 : SourceCfg) (srest : List SourceCfg)
    (lnum : ℚ) (L : String) (ch : Chapter) (bs bu : String)
    (pe : PendingEntry)
    (hs : getSourcesFromManga manga = s0 :: srest)
    (hln : lastNumOf st manga.title = .ok lnum)
    (hb : dictLookup L (scanBackups fetch st manga.title lnum
      (scanPrimary fetch st manga.title lnum s0) srest []) =
      some (ch, bs, bu))
    (hpnone : dictLookup L (scanPrimary fetch st manga.title lnum s0) = none)
    (hpend : st.get_pending_backup manga.title L = some pe)
    (hdel : (manga.fallback_delay_days.getD 2) * 86400 ≤
      now - pe.first_seen) :
    mkChapterWithSource ch bs bu true ∈ checkDecisions manga fetch now st := by
  have hmemb := dictLookup_mem _ _ _ hb
  have hbnd := scanBackups_keys_nodup fetch st manga.title lnum
    (scanPrimary fetch st manga.title lnum s0) srest [] (by simp)
  have hLnotp : L ∉ (scanPrimary fetch st manga.title lnum s0).map
      Prod.fst := by
    intro hmem
    have := dictLookup_isSome_of_mem_keys L _ hmem
    rw [hpnone] at this
    simp at this
  have hpend1 : ((processPrimary manga.title s0.source s0.url
      (scanPrimary fetch st manga.title lnum s0) st).2).get_pending_backup
        manga.title L = some pe := by
    rw [processPrimary_pending_preserve _ _ _ _ _ _ _ (Or.inr hLnotp)]
    exact hpend
  rw [checkDecisions_eq manga fetch now st s0 srest lnum hs hln, mem_pySort]
  refine List.mem_append.2 (Or.inr ?_)
  exact processBackups_emits _ _ _ _ _ _ L ch bs bu pe hbnd hmemb hpnone
    hpend1 ((le_fdiv_86400_iff _ _).2 hdel)

/-- Witness for C5 (amended): the decision carries the current run's backup
identity `siteB`/`urlB`. -/
theorem c5_current_run_backup_identity_witness :
    mkChapterWithSource { number := "5", url := "u5" } "siteB" "urlB" true ∈
      checkDecisions
        { title := "T", sources := some [.dict (some "prim") "pu",
          .dict (some "siteB") "urlB"] }
        (fun s _ => if s = "siteB" then some [{ number := "5", url := "u5" }]
          else some []) (3 * 86400)
        (State.mk [("T",
          { pending_backup := [("5", ⟨0, "siteA", "oldurl"⟩)] })]) :=
  c5_current_run_backup_identity
    { title := "T", sources := some [.dict (some "prim") "pu",
      .dict (some "siteB") "urlB"] }
    (fun s _ => if s = "siteB" then some [{ number := "5", url := "u5" }]
      else some []) (3 * 86400)
    (State.mk [("T", { pending_backup := [("5", ⟨0, "siteA", "oldurl"⟩)] })])
    ⟨"prim", "pu"⟩ [⟨"siteB", "urlB"⟩] (mkRat 0 1) "5"
    { number := "5", url := "u5" } "siteB" "urlB" ⟨0, "siteA", "oldurl"⟩
    (by decide) (by decide) (by decide) (by decide) (by decide) (by decide)

/-- Claim C6: a pending chapter label found on the rank-0 primary source
(passing the new-chapter filter) is emitted as a non-fallback decision with
the primary source's identity, and its pending entry is cleared — with no
condition on the fallback delay. -/
theorem c6_primary_preemption (manga : Manga) (fetch : Listing) (now : Int)
    (st : State) (s0 : SourceCfg) (srest : List SourceCfg) (lnum : ℚ)
    (L : String) (ch : Chapter) (pe : PendingEntry)
    (hs : getSourcesFromManga manga = s0 :: srest)
    (hln : lastNumOf st manga.title = .ok lnum)
    (hp : dictLookup L (scanPrimary fetch st manga.title lnum s0) = some ch)
    (hpend : st.get_pending_backup manga.title L = some pe)
    (hwf : PendingWF st manga.title) :
    (mkChapterWithSource ch s0.source s0.url false ∈
      checkDecisions manga fetch now st) ∧
    (checkState manga fetch now st).get_pending_backup manga.title L =
      none := by
  have hmemp := dictLookup_mem _ _ _ hp
  have hLkeys : L ∈ (scanPrimary fetch st manga.title lnum s0).map
      Prod.fst := List.mem_map.2 ⟨(L, ch), hmemp, rfl⟩
  have hLnotb : L ∉ (scanBackups fetch st manga.title lnum
      (scanPrimary fetch st manga.title lnum s0) srest []).map Prod.fst := by
    intro hmem
    rcases List.mem_map.1 hmem with ⟨e, he, hfst⟩
    have hnone := (scanBackups_mem fetch st manga.title lnum
      (scanPrimary fetch st manga.title lnum s0) srest [] (by simp)
      e he).2.2.2
    rw [hfst, hp] at hnone
    cases hnone
  constructor
  · rw [checkDecisions_eq manga fetch now st s0 srest lnum hs hln,
      mem_pySort]
    refine List.mem_append.2 (Or.inl ?_)
    rw [processPrimary_decisions]
    exact List.mem_map.2 ⟨(L, ch), hmemp, rfl⟩
  · rw [checkState_eq manga fetch now st s0 srest lnum hs hln]
    rw [processBackups_pending_preserve _ _ _ _ _ _ _ _ (Or.inr hLnotb)]
    exact processPrimary_pending_cleared _ _ _ _ _ _ hwf hLkeys

/-- Witness for C6: primary lists the pending chapter one day in — before
the delay elapses — and it is emitted as non-fallback, pending cleared. -/
theorem c6_primary_preemption_witness :
    (mkChapterWithSource { number := "5", url := "p5" } "prim" "pu" false ∈
      checkDecisions
        { title := "T", sources := some [.dict (some "prim") "pu",
          .dict (some "back") "bu"] }
        (fun _ _ => some [{ number := "5", url := "p5" }]) 86400
        (State.mk [("T",
          { pending_backup := [("5", ⟨0, "back", "b5"⟩)] })])) ∧
    (checkState
        { title := "T", sources := some [.dict (some "prim") "pu",
          .dict (some "back") "bu"] }
        (fun _ _ => some [{ number := "5", url := "p5" }]) 86400
        (State.mk [("T",
          { pending_backup := [("5", ⟨0, "back", "b5"⟩)] })])
      ).get_pending_backup "T" "5" = none :=
  c6_primary_preemption
    { title := "T", sources := some [.dict (some "prim") "pu",
      .dict (some "back") "bu"] }
    (fun _ _ => some [{ number := "5", url := "p5" }]) 86400
    (State.mk [("T", { pending_backup := [("5", ⟨0, "back", "b5"⟩)] })])
    ⟨"prim", "pu"⟩ [⟨"back", "bu"⟩] (mkRat 0 1) "5"
    { number := "5", url := "p5" } ⟨0, "back", "b5"⟩ (by decide) (by decide)
    (by decide) (by decide) (by unfold PendingWF; decide)

set_option maxHeartbeats 2000000 in
/-- Claim C8, counterexample: with labels "2 Part 1" (ordinal key 2) and
"10" (ordinal key 10) both newly listed, the returned decision list is
["10", "2 Part 1"] — `Chapter.__lt__` falls back to lexicographic string
comparison when a label does not parse as a float, so the output is NOT
sorted ascending by ordinal key. -/
theorem c8_counterexample :
    (checkDecisions { title := "T", sources := some [.dict (some "p") "u"] }
        (fun _ _ => some [{ number := "2 Part 1", url := "a" },
          { number := "10", url := "b" }]) 0 {}).map
      ChapterWithSource.number = ["10", "2 Part 1"] ∧
    labelOrdinal "2 Part 1" < labelOrdinal "10" := by
  refine ⟨by decide, by decide⟩

/-- Claim C8 (amended): the decision list is sorted by `Chapter.__lt__`
(float comparison when both labels parse as floats, lexicographic string
comparison otherwise, stable for equal keys).  When every emitted label
parses as a float this is ascending ordinal-key order; with a non-float
label the order can deviate from ordinal order, and equal ordinal keys keep
encounter order rather than a lexicographic tie-break. -/
theorem c8_sorted_when_labels_parse (manga : Manga) (fetch : Listing)
    (now : Int) (st : State)
    (h : ∀ d ∈ checkDecisions manga fetch now st,
      (pyFloatParse d.number).isSome) :
    (checkDecisions manga fetch now st).Pairwise
      (fun a b => labelOrdinal a.number ≤ labelOrdinal b.number) := by
  rcases checkDecisions_cases manga fetch now st with hnil |
    ⟨s0, srest, lnum, hs, hln, heq⟩
  · rw [hnil]
    exact List.Pairwise.nil
  · obtain ⟨pre, hpre⟩ : ∃ pre, checkDecisions manga fetch now st =
        pySort cwsLt pre := ⟨_, heq⟩
    rw [hpre] at h ⊢
    have hP : ∀ x ∈ pre, (pyFloatParse x.number).isSome := fun x hx =>
      h x ((mem_pySort _ _ _).2 hx)
    have hasym : ∀ x ∈ pre, ∀ y ∈ pre, cwsLt x y = true →
        cwsLt y x = false := by
      intro x hx y hy hxy
      have h1 := (cwsLt_iff_of_parse x y (hP x hx) (hP y hy)).1 hxy
      rw [← Bool.not_eq_true]
      intro hc
      exact absurd ((cwsLt_iff_of_parse y x (hP y hy) (hP x hx)).1 hc)
        (lt_asymm h1)
    have htrans : ∀ x ∈ pre, ∀ y ∈ pre, ∀ z ∈ pre, cwsLt x y = true →
        cwsLt z y = false → cwsLt z x = false := by
      intro x hx y hy z hz hxy hzy
      have h1 := (cwsLt_iff_of_parse x y (hP x hx) (hP y hy)).1 hxy
      have h2 : ¬ labelOrdinal z.number < labelOrdinal y.number := by
        intro hc
        have := (cwsLt_iff_of_parse z y (hP z hz) (hP y hy)).2 hc
        exact absurd (this.symm.trans hzy) (by simp)
      have h3 : labelOrdinal x.number < labelOrdinal z.number :=
        lt_of_lt_of_le h1 (le_of_not_lt h2)
      rw [← Bool.not_eq_true]
      intro hc
      exact absurd ((cwsLt_iff_of_parse z x (hP z hz) (hP x hx)).1 hc)
        (lt_asymm h3)
    have hpw : (pySort cwsLt pre).Pairwise (fun x y => cwsLt y x = false) :=
      pySort_pairwise_not cwsLt pre hasym htrans
    refine hpw.imp_of_mem ?_
    intro a b ha hb hab
    have hna : ¬ labelOrdinal b.number < labelOrdinal a.number := by
      intro hc
      have := (cwsLt_iff_of_parse b a (hP b ((mem_pySort _ _ _).1 hb))
        (hP a ((mem_pySort _ _ _).1 ha))).2 hc
      exact absurd (this.symm.trans hab) (by simp)
    exact le_of_not_lt hna

/-- Witness for C8 (amended): labels "10", "9", "9.5" come back in
ascending ordinal order 9, 9.5, 10. -/
theorem c8_sorted_when_labels_parse_witness :
    ((checkDecisions { title := "T", sources := some [.dict (some "p") "u"] }
        (fun _ _ => some [{ number := "10" }, { number := "9" },
          { number := "9.5" }]) 0 {}).Pairwise
      (fun a b => labelOrdinal a.number ≤ labelOrdinal b.number)) ∧
    (checkDecisions { title := "T", sources := some [.dict (some "p") "u"] }
        (fun _ _ => some [{ number := "10" }, { number := "9" },
          { number := "9.5" }]) 0 {}).map ChapterWithSource.number =
      ["9", "9.5", "10"] :=
  ⟨c8_sorted_when_labels_parse
      { title := "T", sources := some [.dict (some "p") "u"] }
      (fun _ _ => some [{ number := "10" }, { number := "9" },
        { number := "9.5" }]) 0 {} (by decide), by decide⟩

/-- Claim C1: across any sequence of reconcile rounds for one series in
which the caller commits each emitted decision at most once, no label is
committed twice — the sequence of labels whose commit step ran over the
whole trace (stopping within a round at a commit whose sort key raised) is
duplicate-free.  Once a label's commit runs it is in `downloaded` (the
append survives even a raised `ValueError`), the downloaded set only
grows, and every later reconcile filters it out. -/
theorem c1_at_most_once (T : String) (rs : List Round) (st : State)
    (hwf : traceWF T rs st) : (traceCommits rs st).Nodup := by
  simpa using traceWF_commits_aux T rs st [] hwf (by simp) (by simp)

set_option maxHeartbeats 2000000 in
/-- Witness for C1: two rounds; the first emits chapters 5 and 6 and
commits 5, the second emits only 6 (5 is now filtered out) and commits it;
the commit sequence ["5", "6"] has no duplicate. -/
theorem c1_at_most_once_witness :
    (traceCommits
      [{ manga := { title := "T", sources := some [.dict (some "p") "u"] },
         fetch := fun _ _ => some [{ number := "5" }, { number := "6" }],
         now := 0, commitSel := ["5"] },
       { manga := { title := "T", sources := some [.dict (some "p") "u"] },
         fetch := fun _ _ => some [{ number := "5" }, { number := "6" }],
         now := 86400, commitSel := ["6"] }] {}).Nodup :=
  c1_at_most_once "T"
    [{ manga := { title := "T", sources := some [.dict (some "p") "u"] },
       fetch := fun _ _ => some [{ number := "5" }, { number := "6" }],
       now := 0, commitSel := ["5"] },
     { manga := { title := "T", sources := some [.dict (some "p") "u"] },
       fetch := fun _ _ => some [{ number := "5" }, { number := "6" }],
       now := 86400, commitSel := ["6"] }] {}
    (by
      refine ⟨rfl, by decide, by decide, rfl, by decide, by decide, trivial⟩)

/-- Claim C3, counterexample: `RecordDownloaded` alone does NOT remove the
label from `pending` — after `set_pending_backup` and then
`add_downloaded_chapter` for the same label (the call returns normally,
with no `clear_pending_backup` call), the label is simultaneously
downloaded and pending. -/
theorem c3_counterexample :
    ((State.add_downloaded_chapter 1
        (State.set_pending_backup 0 {} "T" "7" "b" "u") "T"
        "7").state.is_chapter_downloaded "T" "7" = true) ∧
    ((State.add_downloaded_chapter 1
        (State.set_pending_backup 0 {} "T" "7" "b" "u") "T"
        "7").state.get_pending_backup "T" "7" = some ⟨0, "b", "u"⟩) ∧
    ((State.add_downloaded_chapter 1
        (State.set_pending_backup 0 {} "T" "7" "b" "u") "T" "7").isOk =
      true) := by
  refine ⟨by decide, by decide, by decide⟩

set_option maxHeartbeats 2000000 in
/-- Claim C3 (amended): disjointness of `pending` and `downloaded` holds
for every state reachable through the engine's `check_for_updates`
transitions and commit steps (`add_downloaded_chapter` immediately
followed by `clear_pending_backup`) that return normally; it is that
separate clear call — not `RecordDownloaded` itself — that removes the
pending entry.  When a commit's sort key raises `ValueError` (a pending
multi-dot all-digits label first seen on a backup source), the exception
escapes before the clear and a reachable state holds the label in
`downloaded` and `pending` at once. -/
theorem c3_pending_downloaded_disjoint :
    (∀ st, ReachableCLI false st → ∀ t l,
        st.is_chapter_downloaded t l = true →
        st.get_pending_backup t l = none) ∧
    (∃ st t l, ReachableCLI true st ∧
        st.is_chapter_downloaded t l = true ∧
        st.get_pending_backup t l ≠ none) := by
  constructor
  · intro st h t l hdl
    exact (reachable_inv st h).1 t l hdl
  · exact ⟨(commitFetchCLI 1
        (checkState
          { title := "T",
            sources := some [.dict (some "p") "pu", .dict (some "b") "bu"] }
          (fun src _ =>
            if src = "p" then some [] else some [{ number := "1.2.3" }])
          0 {})
        "T" "1.2.3").state, "T", "1.2.3",
      ReachableCLI.step_commit_raised 1 "T" "1.2.3"
        (checkState
          { title := "T",
            sources := some [.dict (some "p") "pu", .dict (some "b") "bu"] }
          (fun src _ =>
            if src = "p" then some [] else some [{ number := "1.2.3" }])
          0 {})
        ((commitFetchCLI 1
          (checkState
            { title := "T",
              sources := some [.dict (some "p") "pu", .dict (some "b") "bu"] }
            (fun src _ =>
              if src = "p" then some [] else some [{ number := "1.2.3" }])
            0 {})
          "T" "1.2.3").state)
        rfl
        (ReachableCLI.step_check
          { title := "T",
            sources := some [.dict (some "p") "pu", .dict (some "b") "bu"] }
          (fun src _ =>
            if src = "p" then some [] else some [{ number := "1.2.3" }])
          0 {}
          (checkDecisions
            { title := "T",
              sources := some [.dict (some "p") "pu", .dict (some "b") "bu"] }
            (fun src _ =>
              if src = "p" then some [] else some [{ number := "1.2.3" }])
            0 {})
          (checkState
            { title := "T",
              sources := some [.dict (some "p") "pu", .dict (some "b") "bu"] }
            (fun src _ =>
              if src = "p" then some [] else some [{ number := "1.2.3" }])
            0 {})
          ReachableCLI.init (by decide))
        (by decide),
      by decide, by decide⟩

/-- Witness for C3: the state after committing chapter 7 from a fresh
store (the commit returns normally). -/
theorem c3_pending_downloaded_disjoint_witness :
    (commitFetchCLI 0 {} "T" "7").state.get_pending_backup "T" "7" = none :=
  c3_pending_downloaded_disjoint.1 ((commitFetchCLI 0 {} "T" "7").state)
    (ReachableCLI.step_commit_ok 0 "T" "7" {}
      ((commitFetchCLI 0 {} "T" "7").state) ReachableCLI.init (by decide))
    "T" "7" (by decide)

end MeManga
